import Mathlib

/-!
Verification of the EduSense backend content-intake and answer-synthesis
pipeline against its natural-language specification.

The JavaScript sources are shallowly embedded: strings are lists of
characters (`Str`), JavaScript numbers are rationals (`ℚ`), fallible
calls are `Except`, and external collaborators (OCR, vector index,
generation backends, document store) are oracle parameters.  Each
definition is translated from the corresponding source function; the
source file and line ranges are named in the doc comments.
-/

/-- JavaScript strings are modelled as lists of characters so that every
string operation used by the sources can be evaluated by the kernel. -/
abbrev Str := List Char

/-- Shorthand turning a Lean string literal into the `Str` model. -/
def lit (s : String) : Str := s.data

/-- Left-brace character, kept as a code point. -/
def lbrace : Char := Char.ofNat 123

/-- Right-brace character, kept as a code point. -/
def rbrace : Char := Char.ofNat 125

/-- ASCII whitespace recognised by JavaScript `trim` and the regex class
backslash-s (space, tab, newline, carriage return, vertical tab, form
feed).  The sources only ever see ASCII payloads, so the Unicode space
classes are not modelled. -/
def isJsWs (c : Char) : Bool :=
  c = ' ' || c = Char.ofNat 9 || c = Char.ofNat 10 || c = Char.ofNat 13 ||
  c = Char.ofNat 11 || c = Char.ofNat 12

/-- JavaScript `String.prototype.trim`: drop whitespace from both ends. -/
def jsTrim (s : Str) : Str :=
  ((s.dropWhile isJsWs).reverse.dropWhile isJsWs).reverse

/-- The regex word class backslash-w: ASCII letters, digits, underscore. -/
def isWordChar (c : Char) : Bool :=
  ('a' ≤ c && c ≤ 'z') || ('A' ≤ c && c ≤ 'Z') || ('0' ≤ c && c ≤ '9') || c = '_'

/-- ASCII decimal digit test. -/
def isDigitChar (c : Char) : Bool := '0' ≤ c && c ≤ '9'

/-- Fuel-indexed worker for leftmost, non-overlapping global string
replacement (the semantics of JavaScript `replace` with a `/g` literal
pattern).  The fuel is the length of the subject string; every step
consumes at least one character, so the fuel never runs out when the
worker is started by `replaceAllC`. -/
def replaceAllFuel (pat rep : Str) : Nat → Str → Str
  | _, [] => []
  | 0, s => s
  | Nat.succ fuel, c :: cs =>
    if pat ≠ [] ∧ pat.isPrefixOf (c :: cs) then
      rep ++ replaceAllFuel pat rep fuel ((c :: cs).drop pat.length)
    else
      c :: replaceAllFuel pat rep fuel cs

/-- JavaScript `s.replace(/pat/g, rep)` for a literal pattern. -/
def replaceAllC (pat rep s : Str) : Str := replaceAllFuel pat rep s.length s

/-- JavaScript `s.split('\n')`: `""` splits to `[""]`, and every newline
separates two (possibly empty) fields. -/
def splitNl : Str → List Str
  | [] => [[]]
  | c :: cs =>
    if c = Char.ofNat 10 then [] :: splitNl cs
    else
      match splitNl cs with
      | [] => [[c]]
      | l :: ls => (c :: l) :: ls

/-- Fuel-indexed worker collapsing each maximal run of newlines to a
single newline — the effect of `replace(/\n\n+/g, '\n')` (runs of length
one are left alone, which the collapse also does). -/
def collapseNlFuel : Nat → Str → Str
  | _, [] => []
  | 0, s => s
  | Nat.succ fuel, c :: cs =>
    if c = Char.ofNat 10 then
      Char.ofNat 10 :: collapseNlFuel fuel (cs.dropWhile (fun d => d = Char.ofNat 10))
    else
      c :: collapseNlFuel fuel cs

/-- `replace(/\n\n+/g, '\n')` from the sources. -/
def collapseNl (s : Str) : Str := collapseNlFuel s.length s

/-- ASCII lowercasing, the effect of `toLowerCase` on the ASCII payloads
the keyword detector receives. -/
def toLowerC (s : Str) : Str := s.map Char.toLower

/-- JavaScript `hay.includes(needle)`: substring containment. -/
def containsSub (hay needle : Str) : Bool :=
  hay.tails.any (fun t => needle.isPrefixOf t)

namespace AskServiceMermaid

/-- The five diagram-type keywords recognised by `validateAndFixMermaid`
(src/unnamed/part_005 lines 42–46 and 57). -/
def diagramKinds : List Str :=
  [lit "graph", lit "sequenceDiagram", lit "classDiagram", lit "stateDiagram",
   lit "mindmap"]

/-- Characters kept by the per-line sanitiser
`line.replace(/[^\w\s\[\]\(\)\{\}\-\>\<\:\"\'\|]/g, '')`
(src/unnamed/part_005 line 51). -/
def mermaidAllowed (c : Char) : Bool :=
  isWordChar c || isJsWs c ||
  c = '[' || c = ']' || c = '(' || c = ')' || c = lbrace || c = rbrace ||
  c = '-' || c = '>' || c = '<' || c = ':' || c = Char.ofNat 34 ||
  c = Char.ofNat 39 || c = '|'

/-- `replace(/```$/, '')`: a JavaScript non-multiline `$` matches at the end
of the string or just before a final newline, so a trailing fence is
removed in either position. -/
def stripTrailingFence (s : Str) : Str :=
  if (lit "```").isSuffixOf s then s.take (s.length - 3)
  else if (lit "```\n").isSuffixOf s then s.take (s.length - 4) ++ [Char.ofNat 10]
  else s

/-- One optional newline consumed by the greedy `\n?` of the fence
regexes. -/
def dropOptionalNl (s : Str) : Str :=
  match s with
  | c :: rest => if c = Char.ofNat 10 then rest else s
  | [] => []

/-- The fenced-code-block stripping of `validateAndFixMermaid`
(src/unnamed/part_005 lines 23–27); the input is already trimmed, so the
leftmost regex match sits at position 0. -/
def stripFence (s : Str) : Str :=
  if (lit "```mermaid").isPrefixOf s then
    jsTrim (stripTrailingFence (dropOptionalNl (s.drop 10)))
  else if (lit "```").isPrefixOf s then
    jsTrim (stripTrailingFence (dropOptionalNl (s.drop 3)))
  else s

/-- Per-line step of the sanitiser map (src/unnamed/part_005 lines 40–52):
blank lines and diagram-type declarations pass through verbatim, all
other lines lose every character outside the allow-list. -/
def fixLine (line : Str) : Str :=
  if jsTrim line = [] ∨ diagramKinds.any (fun k => k.isPrefixOf (jsTrim line)) then
    line
  else
    line.filter mermaidAllowed

/-- `validateAndFixMermaid` (src/unnamed/part_005 lines 17–65): trim,
strip a fenced wrapper, turn `;` into newlines, space out the arrow
tokens, sanitise every non-declaration line, prepend `graph TD` when no
diagram-type declaration starts the text, collapse blank-line runs and
trim. -/
def validateAndFixMermaid (mermaidCode : Str) : Str :=
  if jsTrim mermaidCode = [] then []
  else
    let f0 := jsTrim mermaidCode
    let f1 := stripFence f0
    let f2 := f1.map (fun c => if c = ';' then Char.ofNat 10 else c)
    let f3 := replaceAllC (lit "-->") (lit " --> ") f2
    let f4 := replaceAllC (lit "---") (lit " --- ") f3
    let f5 := List.intercalate (lit "\n") ((splitNl f4).map fixLine)
    let f6 :=
      if diagramKinds.any (fun k => k.isPrefixOf f5) then f5
      else lit "graph TD\n" ++ f5
    jsTrim (collapseNl f6)

end AskServiceMermaid

namespace AskServiceMermaid

/-- Trimming a string of whitespace characters yields the empty string. -/
theorem jsTrim_eq_nil_of_ws (s : Str) (h : ∀ c ∈ s, isJsWs c = true) :
    jsTrim s = [] := by
  unfold jsTrim
  rw [List.dropWhile_eq_nil_iff.mpr h]
  simp

/-- Claim C5, counterexample: diagram repair is not idempotent — applying
`validateAndFixMermaid` twice to `"graph TD\nA-->B"` widens the spacing
around the arrow token, so the second application changes the result. -/
theorem c5_repair_not_idempotent :
    validateAndFixMermaid (validateAndFixMermaid (lit "graph TD\nA-->B")) ≠
      validateAndFixMermaid (lit "graph TD\nA-->B") := by decide

/-- Claim C5 (amended): the diagram repair function is total — it never
raises — and an empty or whitespace-only input yields the empty string;
it is however not idempotent, because a second application inserts
additional spaces around already-normalized arrow tokens. -/
theorem c5_repair_empty_on_whitespace (s : Str) (h : ∀ c ∈ s, isJsWs c = true) :
    validateAndFixMermaid s = [] := by
  unfold validateAndFixMermaid
  rw [jsTrim_eq_nil_of_ws s h]
  simp

/-- Witness for C5 (amended) at the concrete whitespace-only input
`"  \n "` and at the empty string. -/
theorem c5_repair_empty_on_whitespace_witness :
    validateAndFixMermaid (lit "  \x0a ") = [] ∧ validateAndFixMermaid [] = [] :=
  ⟨c5_repair_empty_on_whitespace (lit "  \x0a ") (by decide),
   c5_repair_empty_on_whitespace [] (by decide)⟩

end AskServiceMermaid

namespace Embedder

/-- `this.chunkSize * this.avgCharsPerToken` = 400 × 4 characters per
chunk (src/unnamed/part_004 lines 10–12, 22). -/
def chunkSizeChars : Nat := 400 * 4

/-- `this.overlapSize * this.avgCharsPerToken` = 50 × 4 characters of
overlap (src/unnamed/part_004 lines 11–12, 23). -/
def overlapChars : Nat := 50 * 4

/-- One chunk produced by `chunkText`; the random UUID of the source is
not modelled, the remaining payload and metadata fields are. -/
structure ChunkRec where
  text : Str
  chunkIndex : Nat
  startChar : Nat
  endChar : Nat
deriving DecidableEq

/-- The `while` loop of `Embedder.chunkText` (src/unnamed/part_004 lines
26–52), indexed by fuel so that termination is itself a theorem.  Per
iteration: `endIndex = min(startIndex + chunkSizeChars, text.length)`,
the trimmed slice `[startIndex, endIndex)` is appended when non-empty,
and the loop breaks when `startIndex' = endIndex - overlapChars`
satisfies `startIndex' ≥ text.length - overlapChars` — over the integers
that is exactly `endIndex ≥ text.length`, which is the comparison used
here since `endIndex ≤ text.length` always holds. -/
def chunkTextGo (text : Str) (fuel start : Nat) (acc : List ChunkRec) :
    Option (List ChunkRec) :=
  if start < text.length then
    match fuel with
    | 0 => none
    | Nat.succ fuel =>
      let endIndex := min (start + chunkSizeChars) text.length
      let ctext := jsTrim ((text.take endIndex).drop start)
      let acc2 :=
        if ctext.length > 0 then
          acc ++ [⟨ctext, acc.length, start, endIndex⟩]
        else acc
      if text.length ≤ endIndex then some acc2
      else chunkTextGo text fuel (endIndex - overlapChars) acc2
  else some acc

/-- `Embedder.chunkText` run with fuel `text.length + 1`, which theorem
`c6_chunking_terminates` proves sufficient. -/
def chunkText (text : Str) : Option (List ChunkRec) :=
  chunkTextGo text (text.length + 1) 0 []

/-- Trimming never lengthens a string. -/
theorem length_jsTrim_le (s : Str) : (jsTrim s).length ≤ s.length := by
  unfold jsTrim
  calc ((s.dropWhile isJsWs).reverse.dropWhile isJsWs).reverse.length
      = ((s.dropWhile isJsWs).reverse.dropWhile isJsWs).length := by
        rw [List.length_reverse]
    _ ≤ (s.dropWhile isJsWs).reverse.length := (List.dropWhile_sublist _).length_le
    _ = (s.dropWhile isJsWs).length := by rw [List.length_reverse]
    _ ≤ s.length := (List.dropWhile_sublist _).length_le

/-- The chunking loop returns (does not exhaust its fuel) whenever the
fuel covers the remaining distance at the loop's progress rate of
`chunkSizeChars - overlapChars` characters per iteration. -/
theorem chunkTextGo_isSome (text : Str) :
    ∀ (fuel start : Nat) (acc : List ChunkRec),
      text.length ≤ start + (chunkSizeChars - overlapChars) * fuel →
      (chunkTextGo text fuel start acc).isSome := by
  intro fuel
  induction fuel with
  | zero =>
    intro start acc h
    unfold chunkTextGo
    rw [if_neg (by omega)]
    rfl
  | succ f ih =>
    intro start acc h
    unfold chunkTextGo
    by_cases hs : start < text.length
    · rw [if_pos hs]
      by_cases hend : text.length ≤ min (start + chunkSizeChars) text.length
      · simp only [hend, if_true]
        rfl
      · simp only [hend, if_false]
        apply ih
        have hmin : min (start + chunkSizeChars) text.length = start + chunkSizeChars := by
          omega
        rw [hmin]
        unfold chunkSizeChars overlapChars at *
        omega
    · rw [if_neg hs]
      rfl

/-- Every chunk the loop emits, on top of an accumulator of bounded
chunks, has text of length at most `chunkSizeChars`. -/
theorem chunkTextGo_bounded (text : Str) :
    ∀ (fuel start : Nat) (acc cs : List ChunkRec),
      (∀ c ∈ acc, c.text.length ≤ chunkSizeChars) →
      chunkTextGo text fuel start acc = some cs →
      ∀ c ∈ cs, c.text.length ≤ chunkSizeChars := by
  intro fuel
  induction fuel with
  | zero =>
    intro start acc cs hacc hrun
    unfold chunkTextGo at hrun
    by_cases hs : start < text.length
    · rw [if_pos hs] at hrun; exact absurd hrun (by simp)
    · rw [if_neg hs] at hrun
      cases hrun
      exact hacc
  | succ f ih =>
    intro start acc cs hacc hrun
    unfold chunkTextGo at hrun
    by_cases hs : start < text.length
    · rw [if_pos hs] at hrun
      simp only at hrun
      have hacc2 : ∀ c ∈
          (if (jsTrim ((text.take (min (start + chunkSizeChars) text.length)).drop start)).length > 0 then
            acc ++ [⟨jsTrim ((text.take (min (start + chunkSizeChars) text.length)).drop start),
                    acc.length, start, min (start + chunkSizeChars) text.length⟩]
          else acc), c.text.length ≤ chunkSizeChars := by
        intro c hc
        by_cases hne : (jsTrim ((text.take (min (start + chunkSizeChars) text.length)).drop start)).length > 0
        · rw [if_pos hne] at hc
          rcases List.mem_append.mp hc with hmem | hmem
          · exact hacc c hmem
          · rcases List.mem_singleton.mp hmem with rfl
            calc (jsTrim ((text.take (min (start + chunkSizeChars) text.length)).drop start)).length
                ≤ ((text.take (min (start + chunkSizeChars) text.length)).drop start).length :=
                  length_jsTrim_le _
              _ ≤ chunkSizeChars := by
                  rw [List.length_drop, List.length_take]
                  omega
        · rw [if_neg hne] at hc
          exact hacc c hc
      by_cases hend : text.length ≤ min (start + chunkSizeChars) text.length
      · rw [if_pos hend] at hrun
        cases hrun
        exact hacc2
      · rw [if_neg hend] at hrun
        exact ih _ _ _ hacc2 hrun
    · rw [if_neg hs] at hrun
      cases hrun
      exact hacc

/-- Claim C6: for every text, with the fixed chunk size (1600 characters)
and overlap (200 characters), `chunkText` terminates within its finite
iteration budget — in particular also when the remaining tail is shorter
than the overlap — and every produced chunk's text has length at most the
chunk size. -/
theorem c6_chunking_terminates (text : Str) :
    ∃ cs, chunkText text = some cs ∧ ∀ c ∈ cs, c.text.length ≤ chunkSizeChars := by
  have hsome : (chunkTextGo text (text.length + 1) 0 []).isSome := by
    apply chunkTextGo_isSome
    unfold chunkSizeChars overlapChars
    omega
  rcases Option.isSome_iff_exists.mp hsome with ⟨cs, hcs⟩
  exact ⟨cs, hcs, chunkTextGo_bounded text _ _ _ _ (by simp) hcs⟩

end Embedder

/-- JSON values as produced by JavaScript `JSON.parse`; numbers are kept
as rationals. -/
inductive Json where
  | nullV : Json
  | boolV : Bool → Json
  | numV : ℚ → Json
  | strV : Str → Json
  | arrV : List Json → Json
  | objV : List (Str × Json) → Json

/-- The double-quote character. -/
def quoteChar : Char := Char.ofNat 34

/-- The backslash character. -/
def backslashChar : Char := Char.ofNat 92

/-- JSON insignificant whitespace (space, tab, newline, carriage return). -/
def isJsonWs (c : Char) : Bool :=
  c = ' ' || c = Char.ofNat 9 || c = Char.ofNat 10 || c = Char.ofNat 13

/-- Skip JSON whitespace. -/
def skipWs (s : Str) : Str := s.dropWhile isJsonWs

/-- Numeric value of a string of decimal digits. -/
def digitsToNat (ds : Str) : Nat :=
  ds.foldl (fun n c => n * 10 + (c.toNat - 48)) 0

/-- Value of a hexadecimal digit, if any. -/
def hexVal (c : Char) : Option Nat :=
  if '0' ≤ c ∧ c ≤ '9' then some (c.toNat - 48)
  else if 'a' ≤ c ∧ c ≤ 'f' then some (c.toNat - 87)
  else if 'A' ≤ c ∧ c ≤ 'F' then some (c.toNat - 55)
  else none

/-- Parse the body of a JSON string literal (after the opening quote),
including the escape sequences of the JSON grammar; returns the decoded
characters and the input following the closing quote. -/
def parseStrBody : Nat → Str → Option (Str × Str)
  | 0, _ => none
  | Nat.succ fuel, s =>
    match s with
    | [] => none
    | c :: r =>
      if c = quoteChar then some ([], r)
      else if c = backslashChar then
        match r with
        | [] => none
        | e :: r2 =>
          let simpleEsc : Option Char :=
            if e = quoteChar then some quoteChar
            else if e = backslashChar then some backslashChar
            else if e = '/' then some '/'
            else if e = 'b' then some (Char.ofNat 8)
            else if e = 'f' then some (Char.ofNat 12)
            else if e = 'n' then some (Char.ofNat 10)
            else if e = 'r' then some (Char.ofNat 13)
            else if e = 't' then some (Char.ofNat 9)
            else none
          match simpleEsc with
          | some d =>
            match parseStrBody fuel r2 with
            | some (tail, rest) => some (d :: tail, rest)
            | none => none
          | none =>
            if e = 'u' then
              match r2 with
              | h1 :: h2 :: h3 :: h4 :: r3 =>
                match hexVal h1, hexVal h2, hexVal h3, hexVal h4 with
                | some v1, some v2, some v3, some v4 =>
                  match parseStrBody fuel r3 with
                  | some (tail, rest) =>
                    some (Char.ofNat (((v1 * 16 + v2) * 16 + v3) * 16 + v4) :: tail, rest)
                  | none => none
                | _, _, _, _ => none
              | _ => none
            else none
      else if c.toNat < 32 then none
      else
        match parseStrBody fuel r with
        | some (tail, rest) => some (c :: tail, rest)
        | none => none

/-- Parse a JSON number (sign, integer part without leading zeros,
optional fraction, optional exponent). -/
def parseNumber (s : Str) : Option (ℚ × Str) :=
  let sign : ℚ × Str :=
    match s with
    | c :: r => if c = '-' then (-1, r) else (1, s)
    | [] => (1, s)
  match sign.2 with
  | [] => none
  | c :: r =>
    if c = '0' ∧ (r.head?.all (fun d => !isDigitChar d)) then
      parseNumberFrac sign.1 0 r
    else if isDigitChar c ∧ c ≠ '0' then
      let ds := sign.2.takeWhile isDigitChar
      parseNumberFrac sign.1 (digitsToNat ds) (sign.2.drop ds.length)
    else none
where
  /-- Optional fraction after the integer part; `"1."` is invalid. -/
  parseNumberFrac (sg : ℚ) (ip : Nat) (s : Str) : Option (ℚ × Str) :=
    match s with
    | '.' :: r =>
      let ds := r.takeWhile isDigitChar
      if ds = [] then none
      else
        parseNumberExp sg ((ip : ℚ) + (digitsToNat ds : ℚ) / ((10 : ℚ) ^ ds.length))
          (r.drop ds.length)
    | _ => parseNumberExp sg (ip : ℚ) s
  /-- Optional exponent. -/
  parseNumberExp (sg q : ℚ) (s : Str) : Option (ℚ × Str) :=
    match s with
    | e :: r2 =>
      if e = 'e' ∨ e = 'E' then
        let (esign, r3) : Int × Str :=
          match r2 with
          | '+' :: r4 => (1, r4)
          | '-' :: r4 => (-1, r4)
          | _ => (1, r2)
        let ds := r3.takeWhile isDigitChar
        if ds = [] then none
        else
          some (sg * q * (10 : ℚ) ^ (esign * (digitsToNat ds : Int)), r3.drop ds.length)
      else some (sg * q, s)
    | [] => some (sg * q, s)

mutual

/-- Parse one JSON value (fuel-indexed recursive descent). -/
def parseValue : Nat → Str → Option (Json × Str)
  | 0, _ => none
  | Nat.succ fuel, s =>
    let s1 := skipWs s
    match s1 with
    | [] => none
    | c :: r =>
      if c = lbrace then parseObjRest fuel r
      else if c = '[' then parseArrRest fuel r
      else if c = quoteChar then
        match parseStrBody (r.length + 1) r with
        | some (str, rest) => some (Json.strV str, rest)
        | none => none
      else if (lit "true").isPrefixOf s1 then some (Json.boolV true, s1.drop 4)
      else if (lit "false").isPrefixOf s1 then some (Json.boolV false, s1.drop 5)
      else if (lit "null").isPrefixOf s1 then some (Json.nullV, s1.drop 4)
      else
        match parseNumber s1 with
        | some (q, rest) => some (Json.numV q, rest)
        | none => none

/-- Parse an object after its opening brace. -/
def parseObjRest : Nat → Str → Option (Json × Str)
  | 0, _ => none
  | Nat.succ fuel, s =>
    let s1 := skipWs s
    match s1 with
    | [] => none
    | c :: r =>
      if c = rbrace then some (Json.objV [], r)
      else parseMembers fuel s1 []

/-- Parse the comma-separated members of an object. -/
def parseMembers : Nat → Str → List (Str × Json) → Option (Json × Str)
  | 0, _, _ => none
  | Nat.succ fuel, s, acc =>
    let s1 := skipWs s
    match s1 with
    | [] => none
    | c :: r =>
      if c = quoteChar then
        match parseStrBody (r.length + 1) r with
        | some (key, rest) =>
          match skipWs rest with
          | ':' :: rest2 =>
            match parseValue fuel rest2 with
            | some (v, rest3) =>
              match skipWs rest3 with
              | [] => none
              | d :: rest4 =>
                if d = ',' then parseMembers fuel rest4 (acc ++ [(key, v)])
                else if d = rbrace then some (Json.objV (acc ++ [(key, v)]), rest4)
                else none
            | none => none
          | _ => none
        | none => none
      else none

/-- Parse an array after its opening bracket. -/
def parseArrRest : Nat → Str → Option (Json × Str)
  | 0, _ => none
  | Nat.succ fuel, s =>
    let s1 := skipWs s
    match s1 with
    | [] => none
    | c :: r =>
      if c = ']' then some (Json.arrV [], r)
      else parseElems fuel s1 []

/-- Parse the comma-separated elements of an array. -/
def parseElems : Nat → Str → List Json → Option (Json × Str)
  | 0, _, _ => none
  | Nat.succ fuel, s, acc =>
    match parseValue fuel s with
    | some (v, rest) =>
      match skipWs rest with
      | [] => none
      | d :: rest2 =>
        if d = ',' then parseElems fuel rest2 (acc ++ [v])
        else if d = ']' then some (Json.arrV (acc ++ [v]), rest2)
        else none
    | none => none

end

/-- JavaScript `JSON.parse`: parse one value and require only whitespace
to remain.  The fuel `4 * length + 8` dominates the recursion depth,
since every nested call follows the consumption of at least one input
character. -/
def jsonParse (s : Str) : Option Json :=
  match parseValue (4 * s.length + 8) s with
  | some (v, rest) => if skipWs rest = [] then some v else none
  | none => none

/-- JavaScript property access `j[k]` on a parsed JSON value: only
objects have fields; a duplicate key keeps its last occurrence, as
`JSON.parse` does. -/
def Json.getField (j : Json) (k : Str) : Option Json :=
  match j with
  | .objV fs => (fs.reverse.find? (fun p => p.1 == k)).map (fun p => p.2)
  | _ => none

/-- JavaScript truthiness of a JSON value. -/
def jsTruthy : Json → Bool
  | .nullV => false
  | .boolV b => b
  | .numV q => decide (q ≠ 0)
  | .strV s => decide (s ≠ [])
  | .arrV _ => true
  | .objV _ => true

/-- JavaScript `a || d` for a possibly-absent property `a`. -/
def jsOrJ (v : Option Json) (d : Json) : Json :=
  match v with
  | some x => if jsTruthy x then x else d
  | none => d

/-- Numeric view of a JSON value. -/
def Json.asNum : Json → Option ℚ
  | .numV q => some q
  | _ => none

/-- The structured answer object assembled by the LLM clients.  The
fields hold arbitrary JSON values, as JavaScript attaches whatever the
parsed response contained. -/
structure LlmAnswer where
  steps : Json
  finalAnswer : Json
  confidence : Json
  rawResponse : Str

namespace ClaudeClient

/-- The answer object built from a successfully parsed JSON response
(src/src/ai/llm/claudeClient.js lines 117–122): `parsed.steps || []`,
`parsed.final_answer || parsed.finalAnswer || ''`,
`parsed.confidence || 0.8`. -/
def jsonToAnswer (parsed : Json) (content : Str) : LlmAnswer :=
  { steps := jsOrJ (parsed.getField (lit "steps")) (Json.arrV []),
    finalAnswer :=
      jsOrJ (parsed.getField (lit "final_answer"))
        (jsOrJ (parsed.getField (lit "finalAnswer")) (Json.strV [])),
    confidence := jsOrJ (parsed.getField (lit "confidence")) (Json.numV (4/5)),
    rawResponse := content }

/-- The test regex `/^(Step \d+|[0-9]+\.|\*)/` of
`structureNonJsonResponse` (claudeClient.js line 213). -/
def stepTest (l : Str) : Bool :=
  ((lit "Step ").isPrefixOf l && (l.drop 5).head?.any isDigitChar) ||
  (let ds := l.takeWhile isDigitChar
   ds ≠ [] && (l.drop ds.length).head? == some '.') ||
  l.head? == some '*'

/-- The replacement regex `/^(Step \d+:|[0-9]+\.|\*)\s*/` of
`structureNonJsonResponse` (claudeClient.js line 214); note the extra
colon relative to `stepTest`, taken verbatim from the source. -/
def stepStrip (l : Str) : Str :=
  if (lit "Step ").isPrefixOf l then
    let ds := (l.drop 5).takeWhile isDigitChar
    if ds ≠ [] ∧ (l.drop (5 + ds.length)).head? = some ':' then
      (l.drop (5 + ds.length + 1)).dropWhile isJsWs
    else stepStripTail l
  else stepStripTail l
where
  /-- The second and third regex alternatives. -/
  stepStripTail (l : Str) : Str :=
    let ds := l.takeWhile isDigitChar
    if ds ≠ [] ∧ (l.drop ds.length).head? = some '.' then
      (l.drop (ds.length + 1)).dropWhile isJsWs
    else if l.head? = some '*' then (l.drop 1).dropWhile isJsWs
    else l

/-- `structureNonJsonResponse` (claudeClient.js lines 206–226; the
method of the same name on the Gemini client, lines 396–415, is
character-for-character identical): keep non-blank lines, turn
ordinal/bullet-prefixed lines into steps, concatenate lines longer than
50 characters into the final answer, and fall back to the whole content
when no step was recognised. -/
def structureNonJsonResponse (content : Str) : LlmAnswer :=
  let lines := (splitNl content).filter (fun l => jsTrim l ≠ [])
  let sf :=
    lines.foldl
      (fun (p : List Str × Str) line =>
        if stepTest line then (p.1 ++ [stepStrip line], p.2)
        else if line.length > 50 then (p.1, p.2 ++ line ++ [' '])
        else p)
      ([], [])
  { steps := Json.arrV ((if sf.1 ≠ [] then sf.1 else [content]).map Json.strV),
    finalAnswer :=
      Json.strV (if jsTrim sf.2 ≠ [] then jsTrim sf.2 else content.take 200),
    confidence := Json.numV (3/4),
    rawResponse := content }

/-- `content.match(/\{[\s\S]*\}/)` (claudeClient.js line 114): the
greedy regex matches from the first left brace to the last right brace
of the whole string, provided the latter comes after the former. -/
def extractBraces (s : Str) : Option Str :=
  match s.findIdx? (fun c => c = lbrace), s.reverse.findIdx? (fun c => c = rbrace) with
  | some i, some rj =>
    let j := s.length - 1 - rj
    if i < j then some ((s.take (j + 1)).drop i) else none
  | _, _ => none

/-- The response-parsing portion of `ClaudeClient.askWithContext`
(claudeClient.js lines 112–130): extract the brace-to-brace substring,
`JSON.parse` it, and on a missing match or a parse error fall back to
`structureNonJsonResponse`. -/
def parsePipeline (content : Str) : LlmAnswer :=
  match extractBraces content with
  | some sub =>
    match jsonParse sub with
    | some parsed => jsonToAnswer parsed content
    | none => structureNonJsonResponse content
  | none => structureNonJsonResponse content

end ClaudeClient

/-- Fuel-indexed scan for the first balanced brace substring (the fuel
is the remaining input length plus one). -/
def balancedFuel : Nat → Str → Nat → Str → Option Str
  | 0, _, _, _ => none
  | Nat.succ fuel, s, depth, acc =>
    match s with
    | [] => none
    | c :: r =>
      if c = lbrace then balancedFuel fuel r (depth + 1) (acc ++ [c])
      else if c = rbrace then
        if depth = 1 then some (acc ++ [c])
        else if depth = 0 then none
        else balancedFuel fuel r (depth - 1) (acc ++ [c])
      else balancedFuel fuel r depth (acc ++ [c])

/-- The first balanced `\x7b ... \x7d` substring of a string, starting
at its first left brace. -/
def firstBalancedBraces (s : Str) : Option Str :=
  let t := s.dropWhile (fun c => ¬ c = lbrace)
  balancedFuel (t.length + 1) t 0 []

/-- Modelled from the spec (parsing policy of §4.4, quoted by claim C4):
first attempt direct JSON parsing of the whole text; on failure extract
the first balanced brace substring and parse that; on failure of that
too, apply the heuristic line-based structuring. -/
def specParsePipeline (content : Str) : LlmAnswer :=
  match jsonParse content with
  | some parsed => ClaudeClient.jsonToAnswer parsed content
  | none =>
    match firstBalancedBraces content with
    | some sub =>
      match jsonParse sub with
      | some parsed => ClaudeClient.jsonToAnswer parsed content
      | none => ClaudeClient.structureNonJsonResponse content
    | none => ClaudeClient.structureNonJsonResponse content

namespace GroqClient

/-- `GroqClient.parseResponse` (src/unnamed/part_006 lines 159–172):
direct `JSON.parse`, and on failure a fixed wrapper object embedding the
raw text — no brace extraction and no line heuristic. -/
def parseResponse (text : Str) : Json :=
  match jsonParse text with
  | some parsed => parsed
  | none =>
    Json.objV
      [(lit "explanation", Json.strV text),
       (lit "steps", Json.arrV [Json.strV (lit "See explanation above.")]),
       (lit "finalAnswer", Json.strV (lit "Could not parse structured answer.")),
       (lit "confidence", Json.numV 0),
       (lit "meta",
        Json.objV
          [(lit "subject", Json.strV (lit "General")),
           (lit "difficulty", Json.strV (lit "Unknown")),
           (lit "type", Json.strV (lit "General"))])]

end GroqClient

namespace GeminiClient

/-- The ordered fallback list of model identifiers
(src/src/ai/llm/claudeClient.js, Gemini section, lines 304–309). -/
def modelsToTry : List Str :=
  [lit "gemini-1.5-flash-001", lit "gemini-1.5-flash", lit "gemini-pro",
   lit "gemini-1.0-pro"]

/-- `GeminiClient.parseResponse` (claudeClient.js lines 375–391): strip
markdown fences, `JSON.parse`, defaults `steps || []`,
`final_answer || finalAnswer || ''`, `confidence || 0.85`; on a parse
error, the shared line-based structuring. -/
def parseResponse (text : Str) : LlmAnswer :=
  let cleanText := jsTrim (replaceAllC (lit "```") [] (replaceAllC (lit "```json") [] text))
  match jsonParse cleanText with
  | some parsed =>
    { steps := jsOrJ (parsed.getField (lit "steps")) (Json.arrV []),
      finalAnswer :=
        jsOrJ (parsed.getField (lit "final_answer"))
          (jsOrJ (parsed.getField (lit "finalAnswer")) (Json.strV [])),
      confidence := jsOrJ (parsed.getField (lit "confidence")) (Json.numV (17/20)),
      rawResponse := text }
  | none => ClaudeClient.structureNonJsonResponse text

/-- `GeminiClient.getFallbackResponse` (claudeClient.js lines 420–430). -/
def getFallbackResponse (question : Str) : LlmAnswer :=
  { steps :=
      Json.arrV
        [Json.strV (lit "I apologize, but I encountered an issue generating a detailed response."),
         Json.strV (lit "Please try asking your question again.")],
    finalAnswer :=
      Json.strV (lit "I\x27m having trouble answering \"" ++ question ++ lit "\" right now."),
    confidence := Json.numV (3/10),
    rawResponse := lit "Fallback response" }

/-- The model-fallback loop of `GeminiClient.askWithContext`
(claudeClient.js lines 303–335).  The generation call (prompt built from
question and context, network transport, `response.text()`) is the
oracle `gen`, keyed by model identifier.  The source's test
`modelName === modelsToTry[modelsToTry.length - 1]` asks whether the
current identifier is the last of the (duplicate-free) literal list,
modelled by the one-element pattern. -/
def tryModels (gen : Str → Except Unit Str) (question : Str) :
    List Str → Option LlmAnswer
  | [] => none
  | [m] =>
    match gen m with
    | .ok t => some (parseResponse t)
    | .error _ => some (getFallbackResponse question)
  | m :: m2 :: rest =>
    match gen m with
    | .ok t => some (parseResponse t)
    | .error _ => tryModels gen question (m2 :: rest)

/-- `GeminiClient.askWithContext` for a given generation oracle.  A
JavaScript `for` loop that falls off the end returns `undefined`,
modelled by `none`; with the fixed four-element list this never
happens. -/
def askWithContext (gen : Str → Except Unit Str) (question : Str) :
    Option LlmAnswer :=
  tryModels gen question modelsToTry

end GeminiClient

namespace ClaudeClient

/-- When the content itself starts with a left brace and ends with a
right brace, the greedy regex match is the whole content. -/
theorem extractBraces_whole (s : Str) (h1 : s.head? = some lbrace)
    (h2 : s.getLast? = some rbrace) : extractBraces s = some s := by
  match s with
  | [] => simp at h1
  | c :: rest =>
    have hc : c = lbrace := by simpa using h1
    subst hc
    have hne : rest ≠ [] := by
      intro hr
      subst hr
      simp [List.getLast?] at h2
      exact absurd h2 (by decide)
    have hidx : (lbrace :: rest).findIdx? (fun c => c = lbrace) = some 0 := by
      simp [List.findIdx?_cons]
    have h2' : (lbrace :: rest).reverse.head? = some rbrace := by
      rw [List.head?_reverse]
      exact h2
    obtain ⟨t, ht⟩ : ∃ t, (lbrace :: rest).reverse = rbrace :: t := by
      cases hrev : (lbrace :: rest).reverse with
      | nil => rw [hrev] at h2'; simp at h2'
      | cons d t =>
        rw [hrev] at h2'
        simp at h2'
        exact ⟨t, by rw [h2']⟩
    have hridx : (lbrace :: rest).reverse.findIdx? (fun c => c = rbrace) = some 0 := by
      rw [ht]
      simp [List.findIdx?_cons]
    have hpos : 0 < rest.length := List.length_pos.mpr hne
    simp only [extractBraces, hidx, hridx]
    rw [if_pos (by simp; omega)]
    congr 1
    have hl : (lbrace :: rest).length - 1 - 0 + 1 = (lbrace :: rest).length := by
      simp
    rw [hl, List.take_length, List.drop_zero]

end ClaudeClient

/-- The heuristic structuring always yields a non-empty steps array. -/
theorem structureNonJson_steps_ne (content : Str) :
    ∃ l, (ClaudeClient.structureNonJsonResponse content).steps = Json.arrV l ∧ l ≠ [] := by
  refine ⟨_, rfl, ?_⟩
  split
  · next h => simpa using h
  · simp

/-- Claim C4 (amended): the Claude client's response parsing extracts
the substring from the first left brace to the last right brace (the
greedy regex match, not the first balanced substring) and JSON-parses
it; when the whole text is a JSON object this subsumes direct parsing;
when no such substring exists or parsing it fails, heuristic line-based
structuring is applied (ordinal/bullet lines become steps, long lines
are concatenated into the final answer, confidence 0.75), so a
structured answer object carrying the raw response is always produced
and parsing never throws. -/
theorem c4_parse_policy :
    (∀ content parsed, content.head? = some lbrace → content.getLast? = some rbrace →
       jsonParse content = some parsed →
       ClaudeClient.parsePipeline content = ClaudeClient.jsonToAnswer parsed content) ∧
    (∀ content sub parsed, ClaudeClient.extractBraces content = some sub →
       jsonParse sub = some parsed →
       ClaudeClient.parsePipeline content = ClaudeClient.jsonToAnswer parsed content) ∧
    (∀ content, (∀ sub, ClaudeClient.extractBraces content = some sub → jsonParse sub = none) →
       ClaudeClient.parsePipeline content = ClaudeClient.structureNonJsonResponse content ∧
       (ClaudeClient.structureNonJsonResponse content).confidence = Json.numV (3/4) ∧
       (ClaudeClient.structureNonJsonResponse content).rawResponse = content ∧
       ∃ l, (ClaudeClient.structureNonJsonResponse content).steps = Json.arrV l ∧ l ≠ []) := by
  have hp2 : ∀ content sub parsed, ClaudeClient.extractBraces content = some sub →
      jsonParse sub = some parsed →
      ClaudeClient.parsePipeline content = ClaudeClient.jsonToAnswer parsed content := by
    intro content sub parsed he hj
    simp only [ClaudeClient.parsePipeline, he, hj]
  refine ⟨?_, hp2, ?_⟩
  · intro content parsed h1 h2 hj
    exact hp2 content content parsed (ClaudeClient.extractBraces_whole content h1 h2) hj
  · intro content h
    refine ⟨?_, rfl, rfl, structureNonJson_steps_ne content⟩
    cases he : ClaudeClient.extractBraces content with
    | none => simp only [ClaudeClient.parsePipeline, he]
    | some sub => simp only [ClaudeClient.parsePipeline, he, h sub he]

/-- A response containing two JSON objects separated by junk: the first
balanced substring parses, the greedy first-to-last-brace substring does
not. -/
def c4Input : Str := lit "\x7b\"a\":1\x7d x \x7b\"b\":2\x7d"

/-- Claim C4, counterexample: on `"\x7b"a":1\x7d x \x7b"b":2\x7d"` the
claimed policy (direct parse, then first balanced brace substring) would
succeed on `\x7b"a":1\x7d` and report default confidence 0.8, but the code's
greedy extraction fails to parse and falls back to the line heuristic
with confidence 0.75 — the two policies disagree. -/
theorem c4_parse_policy_counterexample :
    Json.asNum (ClaudeClient.parsePipeline c4Input).confidence ≠
      Json.asNum (specParsePipeline c4Input).confidence := by
  have h1 : Json.asNum (ClaudeClient.parsePipeline c4Input).confidence =
      some (3/4 : ℚ) := rfl
  have h2 : Json.asNum (specParsePipeline c4Input).confidence =
      some (4/5 : ℚ) := rfl
  rw [h1, h2]
  simp only [ne_eq, Option.some.injEq]
  norm_num

/-- Witness for C4 (amended), part 1, at a concrete fully-JSON response. -/
theorem c4_parse_policy_witness :
    ClaudeClient.parsePipeline (lit "\x7b\"a\":\"b\"\x7d") =
      ClaudeClient.jsonToAnswer (Json.objV [(lit "a", Json.strV (lit "b"))])
        (lit "\x7b\"a\":\"b\"\x7d") :=
  c4_parse_policy.1 (lit "\x7b\"a\":\"b\"\x7d")
    (Json.objV [(lit "a", Json.strV (lit "b"))]) (by decide) (by decide) (by rfl)

/-- Claim C3: when every model identifier in the generation client's
ordered fallback list fails, `askWithContext` returns (never throws) the
fixed fallback answer object, whose confidence equals 0.3, whose steps
are a non-empty list of apology strings, and whose `rawResponse` is the
marker `"Fallback response"`. -/
theorem c3_generation_fallback (gen : Str → Except Unit Str) (question : Str)
    (h : ∀ m ∈ GeminiClient.modelsToTry, gen m = .error ()) :
    GeminiClient.askWithContext gen question =
        some (GeminiClient.getFallbackResponse question) ∧
      (GeminiClient.getFallbackResponse question).confidence = Json.numV (3/10) ∧
      (∃ l, (GeminiClient.getFallbackResponse question).steps = Json.arrV l ∧ l ≠ []) ∧
      (GeminiClient.getFallbackResponse question).rawResponse = lit "Fallback response" := by
  have h1 := h (lit "gemini-1.5-flash-001") (by simp [GeminiClient.modelsToTry])
  have h2 := h (lit "gemini-1.5-flash") (by simp [GeminiClient.modelsToTry])
  have h3 := h (lit "gemini-pro") (by simp [GeminiClient.modelsToTry])
  have h4 := h (lit "gemini-1.0-pro") (by simp [GeminiClient.modelsToTry])
  refine ⟨?_, rfl, ⟨_, rfl, by simp⟩, rfl⟩
  unfold GeminiClient.askWithContext GeminiClient.modelsToTry
  simp [GeminiClient.tryModels, h1, h2, h3, h4]

/-- Witness for C3 at the oracle that fails for every model. -/
theorem c3_generation_fallback_witness :
    GeminiClient.askWithContext (fun _ => Except.error ()) (lit "q") =
      some (GeminiClient.getFallbackResponse (lit "q")) :=
  (c3_generation_fallback (fun _ => Except.error ()) (lit "q") (fun _ _ => rfl)).1

/-- Metadata payload attached to a retrieved chunk, per the shape stored
on the Doubt record (src/src/models/Doubt.js retrievedContext). -/
structure ChunkMeta where
  source : Option Str
  subject : Option Str
  topic : Option Str
  difficulty : Option Str
deriving DecidableEq

/-- A raw point returned by the vector index client
(`this.client.search`). -/
structure QdrantPoint where
  pointId : Nat
  score : ℚ
  payloadText : Str
  payloadMeta : ChunkMeta
deriving DecidableEq

/-- A search result shaped by `QdrantService.search`
(src/src/ai/rag/qdrantClient.js lines 96–101). -/
structure RagHit where
  hitId : Nat
  score : ℚ
  text : Str
  metadata : ChunkMeta
deriving DecidableEq

/-- A metadata equality filter (`{must: [{key, match: {value}}]}`). -/
structure QFilter where
  key : Str
  value : Str
deriving DecidableEq

/-- The external collaborators of the retrieval path: the embedding
provider (`embedder.embedQuery`) and the vector index
(`this.client.search`), both of which may throw. -/
structure RagEnv where
  embed : Str → Except Unit (List ℚ)
  clientSearch : List ℚ → Nat → Option QFilter → Except Unit (List QdrantPoint)

/-- `QdrantService.search` (qdrantClient.js lines 82–106): forward the
query vector with `limit: topK` and the optional filter, shape each
result as `{id, score, text, metadata}`, and rethrow any error. -/
def qdrantSearch (env : RagEnv) (queryEmbedding : List ℚ) (topK : Nat)
    (filter : Option QFilter) : Except Unit (List RagHit) :=
  match env.clientSearch queryEmbedding topK filter with
  | .ok results =>
    .ok (results.map (fun r => ⟨r.pointId, r.score, r.payloadText, r.payloadMeta⟩))
  | .error e => .error e

namespace Retriever

/-- `this.minScore = 0.5` (src/unnamed/part_003 line 11). -/
def minScore : ℚ := 1/2

/-- `Retriever.retrieve` (src/unnamed/part_003 lines 21–46): embed the
question, search the index, post-filter by the score floor, and on any
error return the empty list for graceful degradation. -/
def retrieve (env : RagEnv) (question : Str) (topK : Nat)
    (filter : Option QFilter) : List RagHit :=
  match env.embed question with
  | .error _ => []
  | .ok queryEmbedding =>
    match qdrantSearch env queryEmbedding topK filter with
    | .error _ => []
    | .ok results => results.filter (fun r => minScore ≤ r.score)

/-- The vector-index collaborator contract assumed from the spec's §2
(the index searches "by similarity"): a successful search returns hits
sorted most-similar first, at most `limit` of them. -/
def SearchContract (env : RagEnv) : Prop :=
  ∀ v k f hits, env.clientSearch v k f = .ok hits →
    List.Pairwise (fun a b : QdrantPoint => b.score ≤ a.score) hits ∧ hits.length ≤ k

/-- Claim C2: for every question, topK and filter, every element returned
by `retrieve` has score ≥ 0.5, the result is sorted descending by score,
its length is at most `topK`, and when the embedding step or the
vector-index search throws, `retrieve` returns the empty list instead of
propagating the error. -/
theorem c2_retrieve_floor (env : RagEnv) (question : Str) (topK : Nat)
    (filter : Option QFilter) (hc : SearchContract env) :
    (∀ r ∈ retrieve env question topK filter, minScore ≤ r.score) ∧
      List.Pairwise (fun a b : RagHit => b.score ≤ a.score)
        (retrieve env question topK filter) ∧
      (retrieve env question topK filter).length ≤ topK ∧
      (env.embed question = .error () → retrieve env question topK filter = []) ∧
      (∀ v, env.embed question = .ok v → env.clientSearch v topK filter = .error () →
        retrieve env question topK filter = []) := by
  cases hemb : env.embed question with
  | error e =>
    cases e
    have hr : retrieve env question topK filter = [] := by
      simp only [retrieve, hemb]
    rw [hr]
    exact ⟨by simp, List.Pairwise.nil, by simp, fun _ => rfl, fun v hv _ => rfl⟩
  | ok v =>
    cases hsearch : env.clientSearch v topK filter with
    | error e =>
      cases e
      have hr : retrieve env question topK filter = [] := by
        simp only [retrieve, qdrantSearch, hemb, hsearch]
      rw [hr]
      exact ⟨by simp, List.Pairwise.nil, by simp, fun _ => rfl, fun v' hv' _ => rfl⟩
    | ok hits =>
      obtain ⟨hsorted, hlen⟩ := hc v topK filter hits hsearch
      have hr : retrieve env question topK filter =
          (hits.map (fun r =>
            (⟨r.pointId, r.score, r.payloadText, r.payloadMeta⟩ : RagHit))).filter
            (fun r => decide (minScore ≤ r.score)) := by
        simp only [retrieve, qdrantSearch, hemb, hsearch]
      rw [hr]
      refine ⟨?_, ?_, ?_, ?_, ?_⟩
      · intro r hrmem
        exact of_decide_eq_true (List.mem_filter.mp hrmem).2
      · exact (hsorted.map
          (fun r : QdrantPoint =>
            (⟨r.pointId, r.score, r.payloadText, r.payloadMeta⟩ : RagHit))
          (fun a b h => h)).filter _
      · calc ((hits.map _).filter _).length
            ≤ (hits.map (fun r : QdrantPoint =>
                (⟨r.pointId, r.score, r.payloadText, r.payloadMeta⟩ : RagHit))).length :=
              List.length_filter_le _ _
          _ ≤ topK := by rw [List.length_map]; exact hlen
      · intro h
        exact Except.noConfusion h
      · intro v' hv' hs'
        injection hv' with hv2
        subst hv2
        rw [hsearch] at hs'
        exact Except.noConfusion hs'

/-- Witness for C2 at a concrete environment whose index returns an
empty result list. -/
theorem c2_retrieve_floor_witness :
    (Retriever.retrieve
        ⟨fun _ => .ok [1], fun _ _ _ => .ok []⟩ (lit "q") 5 none).length ≤ 5 :=
  (c2_retrieve_floor ⟨fun _ => .ok [1], fun _ _ _ => .ok []⟩ (lit "q") 5 none
    (fun v k f hits h => by cases h; exact ⟨List.Pairwise.nil, Nat.zero_le k⟩)).2.2.1

end Retriever

namespace AskService

/-- The `meta` block of the generated answer
(src/unnamed/part_005 lines 137–143); each field may be absent. -/
structure MetaInfo where
  subject : Option Str
  topic : Option Str
  subtopic : Option Str
  difficulty : Option Str
  questionType : Option Str
deriving DecidableEq

/-- The `code` block of the generated answer; the snippet may be absent
or not a string (`none`). -/
structure CodeObj where
  language : Str
  snippet : Option Str
deriving DecidableEq

/-- The three follow-up questions of the generated answer. -/
structure FollowUps where
  easy : Str
  medium : Str
  challenge : Str
deriving DecidableEq

/-- The structured answer produced by the generation client and consumed
by `askTextQuestion`, typed per the documented response shape
(src/unnamed/part_006 lines 126–152). -/
structure GenAnswer where
  explanation : Str
  steps : List Str
  finalAnswer : Str
  confidence : ℚ
  meta : Option MetaInfo
  followUpQuestions : Option FollowUps
  mermaidCode : Str
  code : Option CodeObj
deriving DecidableEq

/-- One retrieved-context snippet as stored on the Doubt record
(src/unnamed/part_005 lines 129–133). -/
structure RetrievedChunk where
  text : Str
  score : ℚ
  metadata : ChunkMeta
deriving DecidableEq

/-- Doubt status enumeration (src/src/models/Doubt.js). -/
inductive DoubtStatus where
  | answered
  | pending
  | failed
deriving DecidableEq

/-- The Doubt document created by `askTextQuestion`
(src/unnamed/part_005 lines 122–148 and 172–180).  Timestamps and the
random document id are not modelled; fields the failure path leaves
unset take their schema defaults. -/
structure DoubtDoc where
  userId : Nat
  questionText : Str
  answerSteps : List Str
  explanation : Str
  finalAnswer : Str
  confidence : ℚ
  retrievedContext : List RetrievedChunk
  status : DoubtStatus
  subject : Str
  meta : MetaInfo
  followUpQuestions : Option FollowUps
  mermaidCode : Str
  code : Option CodeObj
  tags : List Str
deriving DecidableEq

/-- Options accepted by `askTextQuestion` (subject and tags are the ones
that feed the persisted record). -/
structure AskOptions where
  subject : Option Str
  tags : Option (List Str)
deriving DecidableEq

/-- The keyword table of `detectSubject`
(src/unnamed/part_005 lines 239–247), in insertion order. -/
def subjectKeywords : List (Str × List Str) :=
  [(lit "mathematics",
    [lit "math", lit "equation", lit "algebra", lit "calculus", lit "geometry",
     lit "trigonometry"]),
   (lit "physics",
    [lit "physics", lit "force", lit "energy", lit "motion", lit "velocity",
     lit "acceleration"]),
   (lit "chemistry",
    [lit "chemistry", lit "molecule", lit "atom", lit "reaction", lit "element",
     lit "compound"]),
   (lit "biology",
    [lit "biology", lit "cell", lit "organism", lit "dna", lit "evolution",
     lit "ecosystem"]),
   (lit "computer_science",
    [lit "programming", lit "algorithm", lit "code", lit "software",
     lit "computer", lit "data structure"]),
   (lit "history",
    [lit "history", lit "war", lit "civilization", lit "ancient",
     lit "revolution"]),
   (lit "literature",
    [lit "literature", lit "novel", lit "poem", lit "author", lit "story",
     lit "character"])]

/-- `AskService.detectSubject` (src/unnamed/part_005 lines 236–256):
first keyword table entry with a keyword contained in the lowercased
text, defaulting to `"general"`. -/
def detectSubject (text : Str) : Str :=
  let lowerText := toLowerC text
  match subjectKeywords.find? (fun p => p.2.any (fun k => containsSub lowerText k)) with
  | some p => p.1
  | none => lit "general"

/-- JavaScript `a || d` on an optional string. -/
def jsOrStr (x : Option Str) (d : Str) : Str :=
  match x with
  | some s => if s = [] then d else s
  | none => d

/-- The confidence normalization of src/unnamed/part_005 line 128:
`Math.min(1, Math.max(0, (Number(v) > 1 ? Number(v)/100 : Number(v)) || 0))`.
The `|| 0` only rescues `NaN`, which the rational model has no value
for. -/
def normalizeConfidence (v : ℚ) : ℚ :=
  min 1 (max 0 (if 1 < v then v / 100 else v))

/-- The code-block guard of src/unnamed/part_005 lines 115–120: keep the
code object only when its snippet is a string with non-blank content. -/
def codeToSave (code : Option CodeObj) : Option CodeObj :=
  match code with
  | some c =>
    match c.snippet with
    | some s => if jsTrim s ≠ [] then some c else none
    | none => none
  | none => none

/-- The `Doubt.create` argument of the success path
(src/unnamed/part_005 lines 122–148). -/
def mkDoubtDoc (userId : Nat) (questionText : Str) (a : GenAnswer)
    (context : List RagHit) (opts : AskOptions) : DoubtDoc :=
  { userId := userId,
    questionText := questionText,
    answerSteps := a.steps,
    explanation := a.explanation,
    finalAnswer := a.finalAnswer,
    confidence := normalizeConfidence a.confidence,
    retrievedContext := context.map (fun c => ⟨c.text, c.score, c.metadata⟩),
    status := .answered,
    subject :=
      jsOrStr (a.meta.bind MetaInfo.subject)
        (jsOrStr opts.subject (detectSubject questionText)),
    meta :=
      { subject := a.meta.bind MetaInfo.subject,
        topic := a.meta.bind MetaInfo.topic,
        subtopic := a.meta.bind MetaInfo.subtopic,
        difficulty := a.meta.bind MetaInfo.difficulty,
        questionType := a.meta.bind MetaInfo.questionType },
    followUpQuestions := a.followUpQuestions,
    mermaidCode := AskServiceMermaid.validateAndFixMermaid a.mermaidCode,
    code := codeToSave a.code,
    tags := opts.tags.getD [] }

/-- The `Doubt.create` argument of the failure path
(src/unnamed/part_005 lines 172–180); unset fields take their schema
defaults. -/
def failedDoubtDoc (userId : Nat) (questionText : Str) : DoubtDoc :=
  { userId := userId,
    questionText := questionText,
    answerSteps := [],
    explanation := [],
    finalAnswer := lit "Failed to generate answer. Please try again.",
    confidence := 0,
    retrievedContext := [],
    status := .failed,
    subject := [],
    meta := ⟨none, none, none, none, none⟩,
    followUpQuestions := none,
    mermaidCode := [],
    code := none,
    tags := [] }

/-- External collaborators of `askTextQuestion`: the retriever call, the
generation client call, and `Doubt.create` persistence (whose outcome
may depend on the document).  Errors carry their message. -/
structure AskEnv where
  retrieve : Except Str (List RagHit)
  ask : List RagHit → Except Str GenAnswer
  create : DoubtDoc → Except Str Unit

/-- The context seen by step 2: retrieval failures are swallowed by the
inner `try`/`catch` of src/unnamed/part_005 lines 84–94. -/
def contextOf (env : AskEnv) : List RagHit :=
  match env.retrieve with
  | .ok c => c
  | .error _ => []

/-- The observable outcome of one `askTextQuestion` call: the value
returned or the error re-raised, every document handed to
`Doubt.create` (in call order), and the documents whose creation
succeeded. -/
structure AskRun where
  result : Except Str DoubtDoc
  attempted : List DoubtDoc
  stored : List DoubtDoc

/-- `AskService.askTextQuestion` (src/unnamed/part_005 lines 75–187):
retrieve context (best-effort), ask the generation client, persist the
answered Doubt, and on any exception persist a best-effort failed Doubt
(ignoring a failure of that persistence) and re-raise the original
error.  The returned response object is modelled by the persisted
document; `updateUserStreak` swallows its own errors and touches no
Doubt, so it does not appear in the outcome. -/
def askTextQuestion (env : AskEnv) (questionText : Str) (userId : Nat)
    (opts : AskOptions) : AskRun :=
  let context := contextOf env
  match env.ask context with
  | .ok answer =>
    let doc := mkDoubtDoc userId questionText answer context opts
    match env.create doc with
    | .ok _ => { result := .ok doc, attempted := [doc], stored := [doc] }
    | .error e =>
      let fd := failedDoubtDoc userId questionText
      match env.create fd with
      | .ok _ => { result := .error e, attempted := [doc, fd], stored := [fd] }
      | .error _ => { result := .error e, attempted := [doc, fd], stored := [] }
  | .error e =>
    let fd := failedDoubtDoc userId questionText
    match env.create fd with
    | .ok _ => { result := .error e, attempted := [fd], stored := [fd] }
    | .error _ => { result := .error e, attempted := [fd], stored := [] }

end AskService

namespace AskService

/-- The persisted confidence is the normalized generation confidence. -/
theorem mkDoubtDoc_confidence (userId : Nat) (q : Str) (a : GenAnswer)
    (context : List RagHit) (opts : AskOptions) :
    (mkDoubtDoc userId q a context opts).confidence =
      normalizeConfidence a.confidence := rfl

/-- Claim C1 (amended): for a raw confidence value v returned by the
generation client, the confidence stored on the Answer Record equals v
when 0 ≤ v ≤ 1, equals v/100 when 1 < v ≤ 100, and is in every case
clamped so that the stored value lies within [0,1]. -/
theorem c1_confidence_normalization (userId : Nat) (q : Str) (a : GenAnswer)
    (context : List RagHit) (opts : AskOptions) :
    (0 ≤ a.confidence → a.confidence ≤ 1 →
      (mkDoubtDoc userId q a context opts).confidence = a.confidence) ∧
    (1 < a.confidence → a.confidence ≤ 100 →
      (mkDoubtDoc userId q a context opts).confidence = a.confidence / 100) ∧
    0 ≤ (mkDoubtDoc userId q a context opts).confidence ∧
    (mkDoubtDoc userId q a context opts).confidence ≤ 1 := by
  simp only [mkDoubtDoc_confidence]
  unfold normalizeConfidence
  refine ⟨?_, ?_, ?_, ?_⟩
  · intro h0 h1
    rw [if_neg (not_lt.mpr h1), max_eq_right h0, min_eq_right h1]
  · intro h1 h100
    have hpos : (0 : ℚ) ≤ a.confidence / 100 :=
      le_of_lt (div_pos (lt_trans one_pos h1) (by norm_num))
    have hle : a.confidence / 100 ≤ 1 := by
      rw [div_le_one (by norm_num : (0 : ℚ) < 100)]
      exact h100
    rw [if_pos h1, max_eq_right hpos, min_eq_right hle]
  · exact le_min (by norm_num) (le_max_left 0 _)
  · exact min_le_left 1 _

/-- Witness for C1 (amended) at the raw confidence 1/2. -/
theorem c1_confidence_normalization_witness :
    (mkDoubtDoc 0 (lit "q") ⟨[], [], [], 1/2, none, none, [], none⟩ []
      ⟨none, none⟩).confidence = 1/2 :=
  (c1_confidence_normalization 0 (lit "q") ⟨[], [], [], 1/2, none, none, [], none⟩
    [] ⟨none, none⟩).1 (by norm_num) (by norm_num)

/-- An environment whose generation client reports raw confidence 200. -/
def env200 : AskEnv :=
  { retrieve := .ok [],
    ask := fun _ => .ok ⟨[], [], [], 200, none, none, [], none⟩,
    create := fun _ => .ok () }

/-- Claim C1, counterexample: for the raw confidence v = 200 the claim
as stated requires the stored confidence to be v/100 = 2, but the code
clamps the stored value to 1. -/
theorem c1_confidence_normalization_counterexample :
    ((askTextQuestion env200 (lit "q") 0 ⟨none, none⟩).stored.map
        DoubtDoc.confidence) = [1] ∧ (1 : ℚ) ≠ 200 / 100 := by
  constructor
  · have h1 : (askTextQuestion env200 (lit "q") 0 ⟨none, none⟩).stored =
        [mkDoubtDoc 0 (lit "q") ⟨[], [], [], 200, none, none, [], none⟩ []
          ⟨none, none⟩] := rfl
    have h2 : normalizeConfidence 200 = 1 := by
      unfold normalizeConfidence
      norm_num
    rw [h1]
    simp only [List.map, mkDoubtDoc_confidence, h2]
  · norm_num

/-- Claim C8: whenever generation or the success-path persistence
throws, `askTextQuestion` attempts (best-effort, as its last persistence
call) a failed Answer Record carrying the question, the fixed apology
final answer, confidence 0 and status `failed`, and re-raises the
original error to the caller. -/
theorem c8_failed_record_and_reraise (env : AskEnv) (q : Str) (userId : Nat)
    (opts : AskOptions) (e : Str)
    (h : env.ask (contextOf env) = .error e ∨
      (∃ a, env.ask (contextOf env) = .ok a ∧
        env.create (mkDoubtDoc userId q a (contextOf env) opts) = .error e)) :
    (askTextQuestion env q userId opts).result = .error e ∧
      (askTextQuestion env q userId opts).attempted.getLast? =
        some (failedDoubtDoc userId q) ∧
      (failedDoubtDoc userId q).status = .failed ∧
      (failedDoubtDoc userId q).finalAnswer =
        lit "Failed to generate answer. Please try again." ∧
      (failedDoubtDoc userId q).confidence = 0 ∧
      (failedDoubtDoc userId q).questionText = q := by
  rcases h with hask | ⟨a, hask, hcreate⟩
  · cases hcf : env.create (failedDoubtDoc userId q) with
    | ok u =>
      refine ⟨?_, ?_, rfl, rfl, rfl, rfl⟩ <;>
        (simp only [askTextQuestion, hask, hcf]; try rfl)
    | error e2 =>
      refine ⟨?_, ?_, rfl, rfl, rfl, rfl⟩ <;>
        (simp only [askTextQuestion, hask, hcf]; try rfl)
  · cases hcf : env.create (failedDoubtDoc userId q) with
    | ok u =>
      refine ⟨?_, ?_, rfl, rfl, rfl, rfl⟩ <;>
        (simp only [askTextQuestion, hask, hcreate, hcf]; try rfl)
    | error e2 =>
      refine ⟨?_, ?_, rfl, rfl, rfl, rfl⟩ <;>
        (simp only [askTextQuestion, hask, hcreate, hcf]; try rfl)

/-- An environment whose generation client throws. -/
def envGenFails : AskEnv :=
  { retrieve := .ok [],
    ask := fun _ => .error (lit "boom"),
    create := fun _ => .ok () }

/-- Witness for C8 at a concrete environment with a failing generation
client. -/
theorem c8_failed_record_and_reraise_witness :
    (askTextQuestion envGenFails (lit "q") 0 ⟨none, none⟩).result =
        .error (lit "boom") ∧
      (askTextQuestion envGenFails (lit "q") 0 ⟨none, none⟩).attempted.getLast? =
        some (failedDoubtDoc 0 (lit "q")) :=
  have h := c8_failed_record_and_reraise envGenFails (lit "q") 0 ⟨none, none⟩
    (lit "boom") (Or.inl rfl)
  ⟨h.1, h.2.1⟩

end AskService

namespace MediaController

/-- A word bounding box from the OCR collaborator. -/
structure BBox where
  x0 : ℚ
  y0 : ℚ
  x1 : ℚ
  y1 : ℚ
deriving DecidableEq

/-- One OCR word (`ocrRaw.words[i]`). -/
structure OcrWord where
  text : Str
  confidence : ℚ
  bbox : Option BBox
deriving DecidableEq

/-- A requested region `{x, y, width, height}`. -/
structure Rect where
  x : ℚ
  y : ℚ
  width : ℚ
  height : ℚ
deriving DecidableEq

/-- The OCR collaborator result `{text, confidence, raw: {words}}`. -/
structure OcrResult where
  text : Str
  confidence : ℚ
  words : List OcrWord
deriving DecidableEq

/-- The concept-extraction collaborator result. -/
structure Concepts where
  conceptTags : List Str
  difficulty : Str
deriving DecidableEq

/-- `sourceType` enumeration (src/src/models/Frame.js). -/
inductive SourceType where
  | image
  | pdf_page
  | crop
deriving DecidableEq

/-- Frame `status` enumeration (src/src/models/Frame.js). -/
inductive FrameStatus where
  | queued
  | processing
  | completed
  | failed
deriving DecidableEq

/-- A Frame document.  `history` is a ghost field recording every status
the Frame has had (in order), `pendingProcess` marks a crop whose
un-awaited `processImageImmediately` call has not run yet, and
`regionCompleted` marks a Frame completed by the region-extraction
on-demand OCR path — none of the three exists in the schema, they only
instrument the model for the specification's state-machine claims. -/
structure FrameDoc where
  frameId : Nat
  createdBy : Nat
  sourceType : SourceType
  pdfId : Option Nat
  pageNumber : Option Nat
  status : FrameStatus
  processingError : Option Str
  ocrText : Str
  ocrWords : List OcrWord
  ocrConfidence : ℚ
  conceptTags : List Str
  difficulty : Str
  pendingProcess : Bool
  history : List FrameStatus
  regionCompleted : Bool
deriving DecidableEq

/-- The Frame collection with a fresh-id counter standing in for
MongoDB's object-id generation. -/
structure DB where
  frames : List FrameDoc
  nextId : Nat
deriving DecidableEq

/-- The empty collection. -/
def initDB : DB := ⟨[], 0⟩

/-- `Frame.findById` / `Frame.findOne({_id})`. -/
def findFrame (db : DB) (id : Nat) : Option FrameDoc :=
  db.frames.find? (fun f => f.frameId == id)

/-- An in-place document update (`frame.save()` after mutation, or
`Frame.findByIdAndUpdate`). -/
def updateFrame (db : DB) (id : Nat) (g : FrameDoc → FrameDoc) : DB :=
  { db with frames := db.frames.map (fun f => if f.frameId = id then g f else f) }

/-- A freshly created Frame with the schema defaults
(src/src/models/Frame.js); the crop rectangle, URLs, sizes and
timestamps are not modelled. -/
def newFrame (id user : Nat) (st : SourceType) (pdfId : Option Nat)
    (pageNumber : Option Nat) (status : FrameStatus) (pending : Bool) : FrameDoc :=
  { frameId := id,
    createdBy := user,
    sourceType := st,
    pdfId := pdfId,
    pageNumber := pageNumber,
    status := status,
    processingError := none,
    ocrText := [],
    ocrWords := [],
    ocrConfidence := 0,
    conceptTags := [],
    difficulty := lit "unknown",
    pendingProcess := pending,
    history := [status],
    regionCompleted := false }

/-- Append a status transition (`frame.status = s; await frame.save()`). -/
def setStatus (s : FrameStatus) (f : FrameDoc) : FrameDoc :=
  { f with status := s, history := f.history ++ [s] }

/-- `processImageImmediately` (src/unnamed/part_002 lines 435–476): mark
the frame `processing`, run OCR; on success store the OCR fields and the
(best-effort) concepts and mark `completed`; on an OCR error mark
`failed` with the error message. -/
def processImageImmediately (id : Nat) (ocr : Except Str OcrResult)
    (concepts : Except Unit Concepts) (db : DB) : DB :=
  match findFrame db id with
  | none => db
  | some _ =>
    let db1 := updateFrame db id (setStatus .processing)
    match ocr with
    | .ok o =>
      let cs :=
        match concepts with
        | .ok c => c
        | .error _ => (⟨[], lit "unknown"⟩ : Concepts)
      updateFrame db1 id (fun f =>
        { f with
          ocrText := o.text,
          ocrWords := o.words,
          ocrConfidence := o.confidence,
          conceptTags := cs.conceptTags,
          difficulty := cs.difficulty,
          status := .completed,
          history := f.history ++ [.completed] })
    | .error e =>
      updateFrame db1 id (fun f =>
        { f with
          status := .failed,
          history := f.history ++ [.failed],
          processingError := some e })

/-- One rasterized PDF page handed to the page fan-out, with the
outcomes of its external calls. -/
structure PageIn where
  pageNumber : Nat
  ocr : Except Str OcrResult
  concepts : Except Unit Concepts

/-- The ingestion operations of the media controller
(src/unnamed/part_002); the outcomes of external collaborator calls
(OCR, concept extraction, PDF rasterization) are carried by the
operation.  `extractCrop` creates the crop Frame whose
`processImageImmediately` call is fired without `await`
(part_002 line 204); the deferred processing is the separate
`cropProcess` operation, which acts at most once per crop. -/
inductive MediaOp where
  | uploadImage (user : Nat) (ocr : Except Str OcrResult)
      (concepts : Except Unit Concepts)
  | uploadPdf (user : Nat) (conv : Except Str (List PageIn))
  | extractCrop (user : Nat) (sourceId : Nat)
  | cropProcess (id : Nat) (ocr : Except Str OcrResult)
      (concepts : Except Unit Concepts)
  | extractRegion (user : Nat) (id : Nat) (rect : Rect)
      (ocr : Except Str OcrResult)
  | deleteFrame (user : Nat) (id : Nat)

/-- One page step of the fan-out of `processPdfImmediately`
(src/unnamed/part_002 lines 487–525): create the page frame in `queued`
with `pdfId` pointing at the parent, then process it immediately. -/
def pdfPageStep (user pid : Nat) (dbacc : DB) (pg : PageIn) : DB :=
  let fid := dbacc.nextId
  let dbc : DB :=
    ⟨dbacc.frames ++ [newFrame fid user .pdf_page (some pid) (some pg.pageNumber) .queued false],
     dbacc.nextId + 1⟩
  processImageImmediately fid pg.ocr pg.concepts dbc

/-- The transition function of the ingestion state machine, one clause
per controller entry point of src/unnamed/part_002:
`uploadImage` (lines 17–78), `uploadPdf` (lines 84–136 and 478–544,
where the parent frame is created already in `processing` and set
`completed` after the fan-out, or `failed` when rasterization throws),
`extractCrop` (lines 142–222, crop created `queued` with `pdfId` set to
the source frame id), the deferred crop processing, `extractTextFromRegion`
(lines 352–431, running OCR on demand and setting `completed` directly
when the frame has no OCR words), and `deleteFrame` (lines 549–583,
whose cascade condition `sourceType === 'pdf_page' && !frame.parentPdfId`
reduces to the source-type test because the schema has no `parentPdfId`
path). -/
def applyOp (db : DB) : MediaOp → DB
  | .uploadImage user ocr concepts =>
    let id := db.nextId
    let db1 : DB :=
      ⟨db.frames ++ [newFrame id user .image none none .queued false], db.nextId + 1⟩
    processImageImmediately id ocr concepts db1
  | .uploadPdf user conv =>
    let pid := db.nextId
    let db1 : DB :=
      ⟨db.frames ++ [newFrame pid user .pdf_page none none .processing false],
       db.nextId + 1⟩
    match conv with
    | .error e =>
      updateFrame db1 pid (fun f =>
        { f with
          status := .failed,
          history := f.history ++ [.failed],
          processingError := some e })
    | .ok pages =>
      updateFrame (pages.foldl (pdfPageStep user pid) db1) pid (setStatus .completed)
  | .extractCrop user sourceId =>
    match findFrame db sourceId with
    | some src =>
      if src.createdBy = user then
        ⟨db.frames ++ [newFrame db.nextId user .crop (some sourceId) none .queued true],
         db.nextId + 1⟩
      else db
    | none => db
  | .cropProcess id ocr concepts =>
    match findFrame db id with
    | some f =>
      if f.pendingProcess then
        processImageImmediately id ocr concepts
          (updateFrame db id (fun g => { g with pendingProcess := false }))
      else db
    | none => db
  | .extractRegion user id _rect ocr =>
    match findFrame db id with
    | none => db
    | some f =>
      if f.createdBy ≠ user then db
      else if f.ocrWords ≠ [] then db
      else
        match ocr with
        | .error _ => db
        | .ok o =>
          updateFrame db id (fun g =>
            { g with
              ocrText := o.text,
              ocrWords := o.words,
              ocrConfidence := o.confidence,
              status := .completed,
              history := g.history ++ [.completed],
              regionCompleted := true })
  | .deleteFrame user id =>
    match findFrame db id with
    | none => db
    | some f =>
      if f.createdBy ≠ user then db
      else
        let base : DB :=
          if f.sourceType = .pdf_page then
            { db with frames := db.frames.filter (fun g => ¬ g.pdfId = some id) }
          else db
        { base with frames := base.frames.filter (fun g => ¬ g.frameId = id) }

/-- Run a sequence of ingestion operations from the empty collection. -/
def runOps (ops : List MediaOp) : DB := ops.foldl applyOp initDB

/-- The word predicate of `extractTextFromRegion`
(src/unnamed/part_002 lines 395–409): a word with no bounding box is
excluded; otherwise its box center `((x0+x1)/2, (y0+y1)/2)` must lie
within the region, all four comparisons inclusive. -/
def wordInRegion (r : Rect) (w : OcrWord) : Bool :=
  match w.bbox with
  | none => false
  | some b =>
    decide (r.x ≤ (b.x0 + b.x1) / 2) && decide ((b.x0 + b.x1) / 2 ≤ r.x + r.width) &&
    decide (r.y ≤ (b.y0 + b.y1) / 2) && decide ((b.y0 + b.y1) / 2 ≤ r.y + r.height)

/-- `selectedWords` (part_002 line 395). -/
def selectedWords (words : List OcrWord) (r : Rect) : List OcrWord :=
  words.filter (wordInRegion r)

/-- `selectedWords.map(w => w.text).join(' ')` (part_002 line 411). -/
def extractedText (words : List OcrWord) (r : Rect) : Str :=
  List.intercalate (lit " ") ((selectedWords words r).map OcrWord.text)

/-- `wordCount: selectedWords.length` (part_002 line 419). -/
def regionWordCount (words : List OcrWord) (r : Rect) : Nat :=
  (selectedWords words r).length

end MediaController

namespace MediaController

/-- Claim C10: a word is selected for region extraction exactly when it
has a bounding box whose center lies inclusively within the region;
words without a bounding box are excluded; the selection preserves OCR
order (it is a sublist); the returned text joins the selected words'
texts with single spaces; and the word count equals the number of
selected words, i.e. the number of words satisfying the predicate. -/
theorem c10_region_word_filter (words : List OcrWord) (r : Rect) :
    (∀ w, w ∈ selectedWords words r ↔
      (w ∈ words ∧ ∃ b, w.bbox = some b ∧
        r.x ≤ (b.x0 + b.x1) / 2 ∧ (b.x0 + b.x1) / 2 ≤ r.x + r.width ∧
        r.y ≤ (b.y0 + b.y1) / 2 ∧ (b.y0 + b.y1) / 2 ≤ r.y + r.height)) ∧
    (∀ w ∈ words, w.bbox = none → w ∉ selectedWords words r) ∧
    (selectedWords words r).Sublist words ∧
    extractedText words r =
      List.intercalate (lit " ") ((selectedWords words r).map OcrWord.text) ∧
    regionWordCount words r = words.countP (wordInRegion r) := by
  have hmem : ∀ w, w ∈ selectedWords words r ↔
      (w ∈ words ∧ ∃ b, w.bbox = some b ∧
        r.x ≤ (b.x0 + b.x1) / 2 ∧ (b.x0 + b.x1) / 2 ≤ r.x + r.width ∧
        r.y ≤ (b.y0 + b.y1) / 2 ∧ (b.y0 + b.y1) / 2 ≤ r.y + r.height) := by
    intro w
    rw [selectedWords, List.mem_filter]
    constructor
    · rintro ⟨hw, hcond⟩
      refine ⟨hw, ?_⟩
      unfold wordInRegion at hcond
      cases hb : w.bbox with
      | none => rw [hb] at hcond; cases hcond
      | some b =>
        rw [hb] at hcond
        simp only [Bool.and_eq_true, decide_eq_true_eq] at hcond
        exact ⟨b, rfl, hcond.1.1.1, hcond.1.1.2, hcond.1.2, hcond.2⟩
    · rintro ⟨hw, b, hb, h1, h2, h3, h4⟩
      refine ⟨hw, ?_⟩
      unfold wordInRegion
      rw [hb]
      simp only [Bool.and_eq_true, decide_eq_true_eq]
      exact ⟨⟨⟨h1, h2⟩, h3⟩, h4⟩
  refine ⟨hmem, ?_, List.filter_sublist _, rfl, ?_⟩
  · intro w _ hb hsel
    rcases (hmem w).mp hsel with ⟨_, b, hbb, _⟩
    rw [hb] at hbb
    exact Option.noConfusion hbb
  · rw [regionWordCount, selectedWords, List.countP_eq_length_filter]

/-- Witness for C10: a word lacking a bounding box is never selected. -/
theorem c10_region_word_filter_witness :
    (⟨lit "w", 1, none⟩ : OcrWord) ∉
      selectedWords [⟨lit "w", 1, none⟩] ⟨0, 0, 10, 10⟩ :=
  (c10_region_word_filter [⟨lit "w", 1, none⟩] ⟨0, 0, 10, 10⟩).2.1
    ⟨lit "w", 1, none⟩ (List.mem_singleton.mpr rfl) rfl

end MediaController

namespace MediaController

/-- Counting helper: in a list without the target id, cascade-plus-self
filtering removes exactly the page frames referencing the id. -/
theorem noId_cascade_count (id : Nat) :
    ∀ l : List FrameDoc, (∀ g ∈ l, ¬ g.frameId = id) →
      ((l.filter (fun g => ¬ g.pdfId = some id)).filter
          (fun g => ¬ g.frameId = id)).length +
        l.countP (fun g => decide (g.pdfId = some id)) = l.length := by
  intro l
  induction l with
  | nil => intro _; rfl
  | cons h t ih =>
    intro hall
    have hh : ¬ h.frameId = id := hall h (List.mem_cons_self h t)
    have iht := ih (fun g hg => hall g (List.mem_cons_of_mem h hg))
    by_cases hp : h.pdfId = some id
    · rw [List.filter_cons, if_neg (by simp [hp]), List.countP_cons,
        if_pos (by simp [hp]), List.length_cons]
      omega
    · rw [List.filter_cons, if_pos (by simp [hp]), List.filter_cons,
        if_pos (by simp [hh]), List.countP_cons, if_neg (by simp [hp]),
        List.length_cons, List.length_cons]
      omega

/-- Counting helper: with unique ids, deleting a parent frame (which
does not reference itself) together with the page frames referencing it
removes exactly `pages + 1` records. -/
theorem cascade_count (id : Nat) :
    ∀ l : List FrameDoc, (l.map FrameDoc.frameId).Nodup →
      ∀ f, f ∈ l → f.frameId = id → ¬ f.pdfId = some id →
      ((l.filter (fun g => ¬ g.pdfId = some id)).filter
          (fun g => ¬ g.frameId = id)).length +
        l.countP (fun g => decide (g.pdfId = some id)) + 1 = l.length := by
  intro l
  induction l with
  | nil => intro _ f hf; cases hf
  | cons h t ih =>
    intro hnd f hf hid hpdf
    rw [List.map_cons, List.nodup_cons] at hnd
    by_cases hh : h.frameId = id
    · have hfh : f = h := by
        rcases List.mem_cons.mp hf with rfl | hft
        · rfl
        · exfalso
          apply hnd.1
          rw [hh, ← hid]
          exact List.mem_map_of_mem FrameDoc.frameId hft
      subst hfh
      have htno : ∀ g ∈ t, ¬ g.frameId = id := by
        intro g hg hgid
        apply hnd.1
        rw [hh, ← hgid]
        exact List.mem_map_of_mem FrameDoc.frameId hg
      rw [List.filter_cons, if_pos (by simp [hpdf]), List.filter_cons,
        if_neg (by simp [hh]), List.countP_cons, if_neg (by simp [hpdf]),
        List.length_cons]
      have := noId_cascade_count id t htno
      omega
    · have hft : f ∈ t := by
        rcases List.mem_cons.mp hf with rfl | hft
        · exact absurd hid hh
        · exact hft
      have iht := ih hnd.2 f hft hid hpdf
      by_cases hp : h.pdfId = some id
      · rw [List.filter_cons, if_neg (by simp [hp]), List.countP_cons,
          if_pos (by simp [hp]), List.length_cons]
        omega
      · rw [List.filter_cons, if_pos (by simp [hp]), List.filter_cons,
          if_pos (by simp [hh]), List.countP_cons, if_neg (by simp [hp]),
          List.length_cons, List.length_cons]
        omega

/-- Claim C9: deleting a parent document Frame removes exactly that
Frame and every page Frame referencing it through `pdfId` (with unique
ids and no self-reference, a parent with N page Frames loses N+1
records), while deleting a `crop` Frame removes only the crop, leaving
every other Frame — in particular its parent — in place. -/
theorem c9_cascade_deletion (db : DB) (user id : Nat) (f : FrameDoc)
    (hfind : findFrame db id = some f) (howner : f.createdBy = user) :
    (f.sourceType = .pdf_page →
      ∀ g, g ∈ (applyOp db (.deleteFrame user id)).frames ↔
        (g ∈ db.frames ∧ ¬ g.frameId = id ∧ ¬ g.pdfId = some id)) ∧
    (f.sourceType = .crop →
      ∀ g, g ∈ (applyOp db (.deleteFrame user id)).frames ↔
        (g ∈ db.frames ∧ ¬ g.frameId = id)) ∧
    (f.sourceType = .pdf_page → (db.frames.map FrameDoc.frameId).Nodup →
      ¬ f.pdfId = some id →
      (applyOp db (.deleteFrame user id)).frames.length +
        db.frames.countP (fun g => decide (g.pdfId = some id)) + 1 =
        db.frames.length) := by
  have hid : f.frameId = id := by
    have := List.find?_some hfind
    simpa using this
  have hmemf : f ∈ db.frames := List.mem_of_find?_eq_some hfind
  refine ⟨?_, ?_, ?_⟩
  · intro hsrc g
    have happ : (applyOp db (.deleteFrame user id)).frames =
        (db.frames.filter (fun g => ¬ g.pdfId = some id)).filter
          (fun g => ¬ g.frameId = id) := by
      simp only [applyOp, hfind]
      rw [if_neg (by simp [howner]), if_pos hsrc]
    rw [happ]
    simp only [List.mem_filter, decide_eq_true_eq]
    tauto
  · intro hsrc g
    have happ : (applyOp db (.deleteFrame user id)).frames =
        db.frames.filter (fun g => ¬ g.frameId = id) := by
      simp only [applyOp, hfind]
      rw [if_neg (by simp [howner]), if_neg (by rw [hsrc]; decide)]
    rw [happ]
    simp only [List.mem_filter, decide_eq_true_eq]
  · intro hsrc hnd hpdf
    have happ : (applyOp db (.deleteFrame user id)).frames =
        (db.frames.filter (fun g => ¬ g.pdfId = some id)).filter
          (fun g => ¬ g.frameId = id) := by
      simp only [applyOp, hfind]
      rw [if_neg (by simp [howner]), if_pos hsrc]
    rw [happ]
    exact cascade_count id db.frames hnd f hmemf hid hpdf

end MediaController

namespace MediaController

/-- A successful OCR outcome used by the concrete scenarios. -/
def okOcr : Except Str OcrResult := .ok ⟨lit "text", 1, []⟩

/-- A successful concept-extraction outcome. -/
def okConcepts : Except Unit Concepts := .ok ⟨[], lit "easy"⟩

/-- A page input with a successful OCR outcome. -/
def pgIn (n : Nat) : PageIn := ⟨n, okOcr, okConcepts⟩

/-- The collection after uploading a three-page PDF. -/
def c9db : DB := runOps [.uploadPdf 3 (.ok [pgIn 1, pgIn 2, pgIn 3])]

/-- The parent document Frame of `c9db`. -/
def c9parent : FrameDoc :=
  { frameId := 0,
    createdBy := 3,
    sourceType := .pdf_page,
    pdfId := none,
    pageNumber := none,
    status := .completed,
    processingError := none,
    ocrText := [],
    ocrWords := [],
    ocrConfidence := 0,
    conceptTags := [],
    difficulty := lit "unknown",
    pendingProcess := false,
    history := [.processing, .completed],
    regionCompleted := false }

/-- Witness for C9: deleting the parent of a three-page document removes
all four records. -/
theorem c9_cascade_deletion_witness :
    ((applyOp c9db (.deleteFrame 3 0)).frames.length +
        c9db.frames.countP (fun g => decide (g.pdfId = some 0)) + 1 =
      c9db.frames.length) ∧
      c9db.frames.length = 4 ∧
      (applyOp c9db (.deleteFrame 3 0)).frames.length = 0 :=
  ⟨(c9_cascade_deletion c9db 3 0 c9parent rfl rfl).2.2 rfl (by decide)
     (fun h => Option.noConfusion h),
   rfl, rfl⟩

/-- The operation sequence of the C7 counterexample: upload an image,
crop it (the crop's background processing has not run yet), then extract
a region from the crop, which runs OCR on demand and sets the crop
`completed` directly. -/
def c7ops : List MediaOp :=
  [.uploadImage 7 okOcr okConcepts, .extractCrop 7 0,
   .extractRegion 7 1 ⟨0, 0, 10, 10⟩ okOcr]

/-- Claim C7, counterexample: after `c7ops` the crop Frame (id 1) has
status `completed` with history `[queued, completed]` — it was never in
status `processing`, refuting the claimed state-machine invariant. -/
theorem c7_state_machine_counterexample :
    (findFrame (runOps c7ops) 1).map FrameDoc.status = some .completed ∧
      (findFrame (runOps c7ops) 1).map FrameDoc.history =
        some [.queued, .completed] ∧
      FrameStatus.processing ∉ [FrameStatus.queued, FrameStatus.completed] :=
  ⟨rfl, rfl, by decide⟩

end MediaController

namespace MediaController

/-- The nominal status transitions of the ingestion state machine:
`queued → processing → {completed, failed}`. -/
def stepOkN : FrameStatus → FrameStatus → Bool
  | .queued, .processing => true
  | .processing, .completed => true
  | .processing, .failed => true
  | _, _ => false

/-- The additional transitions introduced by the region-extraction
on-demand OCR path: it sets `completed` directly from `queued`, `failed`
or `completed`, and the deferred crop processing can re-enter
`processing` from such a region completion. -/
def stepOkR : FrameStatus → FrameStatus → Bool
  | .queued, .completed => true
  | .failed, .completed => true
  | .completed, .completed => true
  | .completed, .processing => true
  | _, _ => false

/-- A status transition is either nominal or region-induced. -/
def stepOk (a b : FrameStatus) : Prop := stepOkN a b = true ∨ stepOkR a b = true

/-- The per-frame invariant maintained by every ingestion operation. -/
structure FrameInv (f : FrameDoc) : Prop where
  statusMem : f.status ∈ f.history
  failedErr : f.status = .failed → f.processingError.isSome = true
  completedVia : FrameStatus.completed ∈ f.history →
    FrameStatus.processing ∈ f.history ∨ f.regionCompleted = true
  lastStatus : f.history.getLast? = some f.status
  notProcessing : f.status ≠ .processing
  chain : List.Chain' stepOk f.history
  pendingStatus : f.pendingProcess = true →
    f.status = .queued ∨ (f.status = .completed ∧ f.regionCompleted = true)
  headInit : f.history.head? = some .queued ∨ f.history.head? = some .processing

/-- The invariant of the parent document Frame during the page fan-out
of `uploadPdf` (created directly in `processing`). -/
structure ParentInv (f : FrameDoc) : Prop where
  statusProcessing : f.status = .processing
  lastStatus : f.history.getLast? = some .processing
  chain : List.Chain' stepOk f.history
  completedVia : FrameStatus.completed ∈ f.history →
    FrameStatus.processing ∈ f.history ∨ f.regionCompleted = true
  headInit : f.history.head? = some .queued ∨ f.history.head? = some .processing
  pendingFalse : f.pendingProcess = false

/-- The collection invariant: ids are below the fresh-id counter, ids
are pairwise distinct, and every frame satisfies the per-frame
invariant. -/
structure DBInv (db : DB) : Prop where
  wf : ∀ f ∈ db.frames, f.frameId < db.nextId
  nodup : (db.frames.map FrameDoc.frameId).Nodup
  inv : ∀ f ∈ db.frames, FrameInv f

/-- The mixed collection invariant holding while `uploadPdf` fans out
its pages: the parent (id `pid`) satisfies `ParentInv`, every other
frame satisfies `FrameInv`. -/
structure PdfMid (pid : Nat) (db : DB) : Prop where
  wf : ∀ f ∈ db.frames, f.frameId < db.nextId
  nodup : (db.frames.map FrameDoc.frameId).Nodup
  inv : ∀ f ∈ db.frames, ¬ f.frameId = pid → FrameInv f
  pinv : ∀ f ∈ db.frames, f.frameId = pid → ParentInv f

theorem mem_updateFrame {db : DB} {id : Nat} {g : FrameDoc → FrameDoc}
    {f' : FrameDoc} (h : f' ∈ (updateFrame db id g).frames) :
    ∃ f ∈ db.frames, f' = if f.frameId = id then g f else f := by
  obtain ⟨f, hf, hfe⟩ := List.mem_map.mp h
  exact ⟨f, hf, hfe.symm⟩

/-- Two consecutive updates of the same id compose. -/
theorem updateFrame_comp (db : DB) (id : Nat) (g1 g2 : FrameDoc → FrameDoc)
    (h : ∀ f, (g1 f).frameId = f.frameId) :
    updateFrame (updateFrame db id g1) id g2 =
      updateFrame db id (fun f => g2 (g1 f)) := by
  unfold updateFrame
  simp only [List.map_map]
  congr 1
  apply List.map_congr_left
  intro f _
  by_cases hf : f.frameId = id
  · simp only [Function.comp_apply, if_pos hf, h, if_pos]
  · simp only [Function.comp_apply, if_neg hf]

/-- An id-preserving update leaves the id multiset unchanged. -/
theorem map_id_updateFrame (db : DB) (id : Nat) (g : FrameDoc → FrameDoc)
    (h : ∀ f, (g f).frameId = f.frameId) :
    (updateFrame db id g).frames.map FrameDoc.frameId =
      db.frames.map FrameDoc.frameId := by
  unfold updateFrame
  simp only [List.map_map]
  apply List.map_congr_left
  intro f _
  by_cases hf : f.frameId = id
  · simp only [Function.comp_apply, if_pos hf, h]
  · simp only [Function.comp_apply, if_neg hf]

theorem updateFrame_nextId (db : DB) (id : Nat) (g : FrameDoc → FrameDoc) :
    (updateFrame db id g).nextId = db.nextId := rfl

/-- Appending to a history keeps its head. -/
theorem head_append_left {l t : List FrameStatus} {s : FrameStatus}
    (h : l.head? = some s) : (l ++ t).head? = some s := by
  cases l with
  | nil => cases h
  | cons a l => simpa using h

/-- Appending one allowed transition to a chain keeps it a chain. -/
theorem chain_concat {l : List FrameStatus} {a : FrameStatus}
    (hc : List.Chain' stepOk l) (hlast : ∀ x, l.getLast? = some x → stepOk x a) :
    List.Chain' stepOk (l ++ [a]) := by
  rw [List.chain'_append]
  refine ⟨hc, List.chain'_singleton a, ?_⟩
  intro x hx y hy
  simp only [List.head?_cons, Option.mem_def, Option.some.injEq] at hy
  subst hy
  exact hlast x hx

/-- The unique frame matching the id of a successful `findFrame`. -/
theorem matched_eq_found {db : DB} {id : Nat} {f f' : FrameDoc}
    (hnd : (db.frames.map FrameDoc.frameId).Nodup)
    (hfind : findFrame db id = some f) (hf' : f' ∈ db.frames)
    (hid : f'.frameId = id) : f' = f := by
  have hfmem : f ∈ db.frames := List.mem_of_find?_eq_some hfind
  have hfid : f.frameId = id := by simpa using List.find?_some hfind
  exact List.inj_on_of_nodup_map hnd hf' hfmem (by rw [hid, hfid])

theorem dbinv_update {db : DB} {id : Nat} {g : FrameDoc → FrameDoc}
    (hid : ∀ f, (g f).frameId = f.frameId) (hinv : DBInv db)
    (hg : ∀ f ∈ db.frames, f.frameId = id → FrameInv f → FrameInv (g f)) :
    DBInv (updateFrame db id g) := by
  refine ⟨?_, ?_, ?_⟩
  · intro f' hf'
    obtain ⟨f, hf, rfl⟩ := mem_updateFrame hf'
    by_cases h : f.frameId = id
    · rw [if_pos h, hid]
      exact hinv.wf f hf
    · rw [if_neg h]
      exact hinv.wf f hf
  · rw [map_id_updateFrame db id g hid]
    exact hinv.nodup
  · intro f' hf'
    obtain ⟨f, hf, rfl⟩ := mem_updateFrame hf'
    by_cases h : f.frameId = id
    · rw [if_pos h]
      exact hg f hf h (hinv.inv f hf)
    · rw [if_neg h]
      exact hinv.inv f hf

/-- A status appearing as the last history entry is in the history. -/
theorem mem_of_getLast {l : List FrameStatus} {s : FrameStatus}
    (h : l.getLast? = some s) : s ∈ l := by
  cases l with
  | nil => cases h
  | cons a t => exact List.mem_of_mem_getLast? (by rw [h]; rfl)

/-- The successful-OCR update of `processImageImmediately` preserves the
frame invariant when the frame enters from `queued` or `completed` with
no pending deferred processing. -/
theorem inv_procOk (o : OcrResult) (cs : Concepts) (f : FrameDoc)
    (hf : FrameInv f) (hst : f.status = .queued ∨ f.status = .completed)
    (hpend : f.pendingProcess = false) :
    FrameInv { f with
      ocrText := o.text, ocrWords := o.words, ocrConfidence := o.confidence,
      conceptTags := cs.conceptTags, difficulty := cs.difficulty,
      status := .completed,
      history := (f.history ++ [FrameStatus.processing]) ++ [FrameStatus.completed] } := by
  have hedge : ∀ x, f.history.getLast? = some x → stepOk x .processing := by
    intro x hx
    have hx2 : x = f.status := by
      rw [hf.lastStatus] at hx
      exact (Option.some.inj hx).symm
    subst hx2
    rcases hst with hq | hc
    · rw [hq]
      exact Or.inl rfl
    · rw [hc]
      exact Or.inr rfl
  constructor
  · show FrameStatus.completed ∈ (f.history ++ [FrameStatus.processing]) ++ [FrameStatus.completed]
    exact List.mem_append_right _ (List.mem_singleton.mpr rfl)
  · intro he
    exact FrameStatus.noConfusion he
  · intro _
    exact Or.inl (List.mem_append_left _
      (List.mem_append_right _ (List.mem_singleton.mpr rfl)))
  · show ((f.history ++ [FrameStatus.processing]) ++ [FrameStatus.completed]).getLast? =
      some FrameStatus.completed
    exact List.getLast?_concat _
  · intro he
    exact FrameStatus.noConfusion he
  · show List.Chain' stepOk ((f.history ++ [FrameStatus.processing]) ++ [FrameStatus.completed])
    refine chain_concat (chain_concat hf.chain hedge) ?_
    intro x hx
    rw [List.getLast?_concat] at hx
    rw [← Option.some.inj hx]
    exact Or.inl rfl
  · intro hp
    have hp2 : f.pendingProcess = true := hp
    exact Bool.noConfusion (hpend.symm.trans hp2)
  · show ((f.history ++ [FrameStatus.processing]) ++ [FrameStatus.completed]).head? = some FrameStatus.queued ∨
      ((f.history ++ [FrameStatus.processing]) ++ [FrameStatus.completed]).head? = some FrameStatus.processing
    rcases hf.headInit with hh | hh
    · exact Or.inl (head_append_left (head_append_left hh))
    · exact Or.inr (head_append_left (head_append_left hh))

/-- The failed-OCR update of `processImageImmediately` preserves the
frame invariant under the same entry conditions. -/
theorem inv_procFail (e : Str) (f : FrameDoc)
    (hf : FrameInv f) (hst : f.status = .queued ∨ f.status = .completed)
    (hpend : f.pendingProcess = false) :
    FrameInv { f with
      status := .failed,
      history := (f.history ++ [FrameStatus.processing]) ++ [FrameStatus.failed],
      processingError := some e } := by
  have hedge : ∀ x, f.history.getLast? = some x → stepOk x .processing := by
    intro x hx
    have hx2 : x = f.status := by
      rw [hf.lastStatus] at hx
      exact (Option.some.inj hx).symm
    subst hx2
    rcases hst with hq | hc
    · rw [hq]
      exact Or.inl rfl
    · rw [hc]
      exact Or.inr rfl
  constructor
  · show FrameStatus.failed ∈ (f.history ++ [FrameStatus.processing]) ++ [FrameStatus.failed]
    exact List.mem_append_right _ (List.mem_singleton.mpr rfl)
  · intro _
    rfl
  · intro _
    exact Or.inl (List.mem_append_left _
      (List.mem_append_right _ (List.mem_singleton.mpr rfl)))
  · show ((f.history ++ [FrameStatus.processing]) ++ [FrameStatus.failed]).getLast? =
      some FrameStatus.failed
    exact List.getLast?_concat _
  · intro he
    exact FrameStatus.noConfusion he
  · show List.Chain' stepOk ((f.history ++ [FrameStatus.processing]) ++ [FrameStatus.failed])
    refine chain_concat (chain_concat hf.chain hedge) ?_
    intro x hx
    rw [List.getLast?_concat] at hx
    rw [← Option.some.inj hx]
    exact Or.inl rfl
  · intro hp
    have hp2 : f.pendingProcess = true := hp
    exact Bool.noConfusion (hpend.symm.trans hp2)
  · show ((f.history ++ [FrameStatus.processing]) ++ [FrameStatus.failed]).head? = some FrameStatus.queued ∨
      ((f.history ++ [FrameStatus.processing]) ++ [FrameStatus.failed]).head? = some FrameStatus.processing
    rcases hf.headInit with hh | hh
    · exact Or.inl (head_append_left (head_append_left hh))
    · exact Or.inr (head_append_left (head_append_left hh))

/-- The region-extraction on-demand completion preserves the frame
invariant for any frame (its entry edge into `completed` is one of the
region edges, since no frame rests in `processing`). -/
theorem inv_regionUpd (o : OcrResult) (f : FrameDoc) (hf : FrameInv f) :
    FrameInv { f with
      ocrText := o.text, ocrWords := o.words, ocrConfidence := o.confidence,
      status := .completed, history := f.history ++ [FrameStatus.completed],
      regionCompleted := true } := by
  constructor
  · show FrameStatus.completed ∈ f.history ++ [FrameStatus.completed]
    exact List.mem_append_right _ (List.mem_singleton.mpr rfl)
  · intro he
    exact FrameStatus.noConfusion he
  · intro _
    exact Or.inr rfl
  · show (f.history ++ [FrameStatus.completed]).getLast? = some FrameStatus.completed
    exact List.getLast?_concat _
  · intro he
    exact FrameStatus.noConfusion he
  · show List.Chain' stepOk (f.history ++ [FrameStatus.completed])
    refine chain_concat hf.chain ?_
    intro x hx
    have hx2 : x = f.status := by
      rw [hf.lastStatus] at hx
      exact (Option.some.inj hx).symm
    subst hx2
    cases hs : f.status with
    | queued => exact Or.inr rfl
    | processing => exact absurd hs hf.notProcessing
    | completed => exact Or.inr rfl
    | failed => exact Or.inr rfl
  · intro _
    exact Or.inr ⟨rfl, rfl⟩
  · show (f.history ++ [FrameStatus.completed]).head? = some FrameStatus.queued ∨
      (f.history ++ [FrameStatus.completed]).head? = some FrameStatus.processing
    rcases hf.headInit with hh | hh
    · exact Or.inl (head_append_left hh)
    · exact Or.inr (head_append_left hh)

/-- Clearing the deferred-processing mark preserves the frame
invariant. -/
theorem inv_clearPending (f : FrameDoc) (hf : FrameInv f) :
    FrameInv { f with pendingProcess := false } := by
  constructor
  · exact hf.statusMem
  · exact hf.failedErr
  · exact hf.completedVia
  · exact hf.lastStatus
  · exact hf.notProcessing
  · exact hf.chain
  · intro hp
    exact Bool.noConfusion hp
  · exact hf.headInit

/-- Completing the parent document frame after the page fan-out turns
its parent invariant into the frame invariant. -/
theorem inv_parentComplete (f : FrameDoc) (hp : ParentInv f) :
    FrameInv (setStatus .completed f) := by
  constructor
  · show FrameStatus.completed ∈ f.history ++ [FrameStatus.completed]
    exact List.mem_append_right _ (List.mem_singleton.mpr rfl)
  · intro he
    exact FrameStatus.noConfusion he
  · intro _
    exact Or.inl (List.mem_append_left _ (mem_of_getLast hp.lastStatus))
  · show (f.history ++ [FrameStatus.completed]).getLast? = some FrameStatus.completed
    exact List.getLast?_concat _
  · intro he
    exact FrameStatus.noConfusion he
  · show List.Chain' stepOk (f.history ++ [FrameStatus.completed])
    refine chain_concat hp.chain ?_
    intro x hx
    rw [hp.lastStatus] at hx
    rw [← Option.some.inj hx]
    exact Or.inl rfl
  · intro hpd
    have hp2 : f.pendingProcess = true := hpd
    exact Bool.noConfusion (hp.pendingFalse.symm.trans hp2)
  · show (f.history ++ [FrameStatus.completed]).head? = some FrameStatus.queued ∨
      (f.history ++ [FrameStatus.completed]).head? = some FrameStatus.processing
    rcases hp.headInit with hh | hh
    · exact Or.inl (head_append_left hh)
    · exact Or.inr (head_append_left hh)

/-- Failing the parent document frame (rasterization error) turns its
parent invariant into the frame invariant. -/
theorem inv_parentFail (e : Str) (f : FrameDoc) (hp : ParentInv f) :
    FrameInv { f with
      status := .failed, history := f.history ++ [FrameStatus.failed],
      processingError := some e } := by
  constructor
  · show FrameStatus.failed ∈ f.history ++ [FrameStatus.failed]
    exact List.mem_append_right _ (List.mem_singleton.mpr rfl)
  · intro _
    rfl
  · intro hc
    rcases List.mem_append.mp hc with hc | hc
    · rcases hp.completedVia hc with hpr | hfl
      · exact Or.inl (List.mem_append_left _ hpr)
      · exact Or.inr hfl
    · cases List.mem_singleton.mp hc
  · show (f.history ++ [FrameStatus.failed]).getLast? = some FrameStatus.failed
    exact List.getLast?_concat _
  · intro he
    exact FrameStatus.noConfusion he
  · show List.Chain' stepOk (f.history ++ [FrameStatus.failed])
    refine chain_concat hp.chain ?_
    intro x hx
    rw [hp.lastStatus] at hx
    rw [← Option.some.inj hx]
    exact Or.inl rfl
  · intro hpd
    have hp2 : f.pendingProcess = true := hpd
    exact Bool.noConfusion (hp.pendingFalse.symm.trans hp2)
  · show (f.history ++ [FrameStatus.failed]).head? = some FrameStatus.queued ∨
      (f.history ++ [FrameStatus.failed]).head? = some FrameStatus.processing
    rcases hp.headInit with hh | hh
    · exact Or.inl (head_append_left hh)
    · exact Or.inr (head_append_left hh)

/-- A frame created in `queued` satisfies the frame invariant. -/
theorem inv_newFrameQueued (id user : Nat) (st : SourceType)
    (pdfId : Option Nat) (pageNumber : Option Nat) (pending : Bool) :
    FrameInv (newFrame id user st pdfId pageNumber .queued pending) := by
  constructor
  · exact List.mem_singleton.mpr rfl
  · intro he
    exact FrameStatus.noConfusion he
  · intro hc
    cases List.mem_singleton.mp hc
  · rfl
  · intro he
    exact FrameStatus.noConfusion he
  · exact List.chain'_singleton _
  · intro _
    exact Or.inl rfl
  · exact Or.inl rfl

/-- The parent document frame is created directly in `processing` and
satisfies the parent invariant. -/
theorem parentInv_newFrame (id user : Nat) :
    ParentInv (newFrame id user .pdf_page none none .processing false) := by
  constructor
  · rfl
  · rfl
  · exact List.chain'_singleton _
  · intro hc
    cases List.mem_singleton.mp hc
  · exact Or.inr rfl
  · rfl

theorem processImage_nextId (id : Nat) (ocr : Except Str OcrResult)
    (concepts : Except Unit Concepts) (db : DB) :
    (processImageImmediately id ocr concepts db).nextId = db.nextId := by
  unfold processImageImmediately
  cases findFrame db id with
  | none => rfl
  | some f =>
    cases ocr with
    | ok o => rfl
    | error e => rfl

theorem dbinv_double_update {db : DB} {id : Nat} {g1 g2 : FrameDoc → FrameDoc}
    (hid1 : ∀ f, (g1 f).frameId = f.frameId)
    (hid2 : ∀ f, (g2 f).frameId = f.frameId) (hinv : DBInv db)
    (hg : ∀ f ∈ db.frames, f.frameId = id → FrameInv f → FrameInv (g2 (g1 f))) :
    DBInv (updateFrame (updateFrame db id g1) id g2) := by
  rw [updateFrame_comp db id g1 g2 hid1]
  exact dbinv_update (fun f => by rw [hid2, hid1]) hinv hg

theorem dbinv_processImage (id : Nat) (ocr : Except Str OcrResult)
    (concepts : Except Unit Concepts) (db : DB) (h : DBInv db)
    (hmatch : ∀ f ∈ db.frames, f.frameId = id →
      (f.status = .queued ∨ f.status = .completed) ∧ f.pendingProcess = false) :
    DBInv (processImageImmediately id ocr concepts db) := by
  unfold processImageImmediately
  cases hfind : findFrame db id with
  | none => exact h
  | some f0 =>
    cases ocr with
    | ok o =>
      exact dbinv_double_update (fun f => rfl) (fun f => rfl) h
        (fun f hf hfid hinvf =>
          inv_procOk o _ f hinvf (hmatch f hf hfid).1 (hmatch f hf hfid).2)
    | error e =>
      exact dbinv_double_update (fun f => rfl) (fun f => rfl) h
        (fun f hf hfid hinvf =>
          inv_procFail e f hinvf (hmatch f hf hfid).1 (hmatch f hf hfid).2)

theorem pdfmid_update {db : DB} {pid id : Nat} {g : FrameDoc → FrameDoc}
    (hid : ∀ f, (g f).frameId = f.frameId) (h : PdfMid pid db)
    (hg : ∀ f ∈ db.frames, f.frameId = id → ¬ f.frameId = pid →
      FrameInv f → FrameInv (g f))
    (hgp : ∀ f ∈ db.frames, f.frameId = id → f.frameId = pid →
      ParentInv f → ParentInv (g f)) :
    PdfMid pid (updateFrame db id g) := by
  refine ⟨?_, ?_, ?_, ?_⟩
  · intro f' hf'
    obtain ⟨f, hf, rfl⟩ := mem_updateFrame hf'
    by_cases hc : f.frameId = id
    · rw [if_pos hc, hid]
      exact h.wf f hf
    · rw [if_neg hc]
      exact h.wf f hf
  · rw [map_id_updateFrame db id g hid]
    exact h.nodup
  · intro f' hf' hfp
    obtain ⟨f, hf, rfl⟩ := mem_updateFrame hf'
    by_cases hc : f.frameId = id
    · rw [if_pos hc] at hfp ⊢
      exact hg f hf hc (fun he => hfp ((hid f) ▸ he ▸ rfl)) (h.inv f hf
        (fun he => hfp (by rw [hid] at hfp ⊢; exact he)))
    · rw [if_neg hc] at hfp ⊢
      exact h.inv f hf hfp
  · intro f' hf' hfp
    obtain ⟨f, hf, rfl⟩ := mem_updateFrame hf'
    by_cases hc : f.frameId = id
    · rw [if_pos hc] at hfp ⊢
      exact hgp f hf hc (by rw [hid] at hfp; exact hfp) (h.pinv f hf
        (by rw [hid] at hfp; exact hfp))
    · rw [if_neg hc] at hfp ⊢
      exact h.pinv f hf hfp

theorem pdfmid_double_update {db : DB} {pid id : Nat} {g1 g2 : FrameDoc → FrameDoc}
    (hid1 : ∀ f, (g1 f).frameId = f.frameId)
    (hid2 : ∀ f, (g2 f).frameId = f.frameId) (h : PdfMid pid db)
    (hg : ∀ f ∈ db.frames, f.frameId = id → ¬ f.frameId = pid →
      FrameInv f → FrameInv (g2 (g1 f)))
    (hgp : ∀ f ∈ db.frames, f.frameId = id → f.frameId = pid →
      ParentInv f → ParentInv (g2 (g1 f))) :
    PdfMid pid (updateFrame (updateFrame db id g1) id g2) := by
  rw [updateFrame_comp db id g1 g2 hid1]
  exact pdfmid_update (fun f => by rw [hid2, hid1]) h hg hgp

theorem pdfmid_processImage (pid id : Nat) (ocr : Except Str OcrResult)
    (concepts : Except Unit Concepts) (db : DB) (h : PdfMid pid db)
    (hmatch : ∀ f ∈ db.frames, f.frameId = id →
      FrameInv f ∧ (f.status = .queued ∨ f.status = .completed) ∧
        f.pendingProcess = false) :
    PdfMid pid (processImageImmediately id ocr concepts db) := by
  unfold processImageImmediately
  cases hfind : findFrame db id with
  | none => exact h
  | some f0 =>
    cases ocr with
    | ok o =>
      refine pdfmid_double_update (fun f => rfl) (fun f => rfl) h ?_ ?_
      · intro f hf hfid _ _
        obtain ⟨hinvf, hst, hpend⟩ := hmatch f hf hfid
        exact inv_procOk o _ f hinvf hst hpend
      · intro f hf hfid _ hparent
        obtain ⟨hinvf, _, _⟩ := hmatch f hf hfid
        exact absurd hparent.statusProcessing hinvf.notProcessing
    | error e =>
      refine pdfmid_double_update (fun f => rfl) (fun f => rfl) h ?_ ?_
      · intro f hf hfid _ _
        obtain ⟨hinvf, hst, hpend⟩ := hmatch f hf hfid
        exact inv_procFail e f hinvf hst hpend
      · intro f hf hfid _ hparent
        obtain ⟨hinvf, _, _⟩ := hmatch f hf hfid
        exact absurd hparent.statusProcessing hinvf.notProcessing

/-- Appending a fresh frame (id = the counter) preserves the collection
invariant when the new frame satisfies the per-frame invariant. -/
theorem dbinv_append {db : DB} (h : DBInv db) (nf : FrameDoc)
    (hid : nf.frameId = db.nextId) (hinvf : FrameInv nf) :
    DBInv ⟨db.frames ++ [nf], db.nextId + 1⟩ := by
  refine ⟨?_, ?_, ?_⟩
  · intro f hf
    rcases List.mem_append.mp hf with hf | hf
    · exact Nat.lt_succ_of_lt (h.wf f hf)
    · rw [List.mem_singleton.mp hf, hid]
      exact Nat.lt_succ_self _
  · rw [List.map_append]
    refine List.Nodup.append h.nodup (List.nodup_singleton _) ?_
    intro a ha hb
    obtain ⟨g, hg, rfl⟩ := List.mem_map.mp ha
    have hlt := h.wf g hg
    rw [List.map_singleton, List.mem_singleton] at hb
    rw [hb, hid] at hlt
    exact Nat.lt_irrefl _ hlt
  · intro f hf
    rcases List.mem_append.mp hf with hf | hf
    · exact h.inv f hf
    · rw [List.mem_singleton.mp hf]
      exact hinvf

/-- Creating the parent document frame of `uploadPdf` (directly in
`processing`) establishes the mixed fan-out invariant. -/
theorem pdfmid_start {db : DB} (h : DBInv db) (user : Nat) :
    PdfMid db.nextId ⟨db.frames ++
      [newFrame db.nextId user .pdf_page none none .processing false],
      db.nextId + 1⟩ := by
  refine ⟨?_, ?_, ?_, ?_⟩
  · intro f hf
    rcases List.mem_append.mp hf with hf | hf
    · exact Nat.lt_succ_of_lt (h.wf f hf)
    · rw [List.mem_singleton.mp hf]
      exact Nat.lt_succ_self _
  · rw [List.map_append]
    refine List.Nodup.append h.nodup (List.nodup_singleton _) ?_
    intro a ha hb
    obtain ⟨g, hg, rfl⟩ := List.mem_map.mp ha
    have hlt := h.wf g hg
    rw [List.map_singleton, List.mem_singleton] at hb
    rw [hb] at hlt
    exact Nat.lt_irrefl _ hlt
  · intro f hf hfp
    rcases List.mem_append.mp hf with hf | hf
    · exact h.inv f hf
    · rw [List.mem_singleton.mp hf] at hfp
      exact absurd rfl hfp
  · intro f hf hfp
    rcases List.mem_append.mp hf with hf | hf
    · exact absurd hfp (Nat.ne_of_lt (h.wf f hf))
    · rw [List.mem_singleton.mp hf]
      exact parentInv_newFrame _ _

/-- Appending a fresh page frame during the fan-out preserves the mixed
invariant. -/
theorem pdfmid_append {pid : Nat} {db : DB} (h : PdfMid pid db)
    (hpid : pid < db.nextId) (user pgn : Nat) :
    PdfMid pid ⟨db.frames ++
      [newFrame db.nextId user .pdf_page (some pid) (some pgn) .queued false],
      db.nextId + 1⟩ := by
  refine ⟨?_, ?_, ?_, ?_⟩
  · intro f hf
    rcases List.mem_append.mp hf with hf | hf
    · exact Nat.lt_succ_of_lt (h.wf f hf)
    · rw [List.mem_singleton.mp hf]
      exact Nat.lt_succ_self _
  · rw [List.map_append]
    refine List.Nodup.append h.nodup (List.nodup_singleton _) ?_
    intro a ha hb
    obtain ⟨g, hg, rfl⟩ := List.mem_map.mp ha
    have hlt := h.wf g hg
    rw [List.map_singleton, List.mem_singleton] at hb
    rw [hb] at hlt
    exact Nat.lt_irrefl _ hlt
  · intro f hf hfp
    rcases List.mem_append.mp hf with hf | hf
    · exact h.inv f hf hfp
    · rw [List.mem_singleton.mp hf]
      exact inv_newFrameQueued _ _ _ _ _ _
  · intro f hf hfp
    rcases List.mem_append.mp hf with hf | hf
    · exact h.pinv f hf hfp
    · rw [List.mem_singleton.mp hf] at hfp
      exact absurd hfp (Nat.ne_of_gt hpid)

/-- A final update of the parent that turns its parent invariant into
the frame invariant restores the collection invariant. -/
theorem dbinv_of_pdfmid_update {db : DB} {pid : Nat} {g : FrameDoc → FrameDoc}
    (hid : ∀ f, (g f).frameId = f.frameId) (h : PdfMid pid db)
    (hg : ∀ f ∈ db.frames, f.frameId = pid → ParentInv f → FrameInv (g f)) :
    DBInv (updateFrame db pid g) := by
  refine ⟨?_, ?_, ?_⟩
  · intro f' hf'
    obtain ⟨f, hf, rfl⟩ := mem_updateFrame hf'
    by_cases hc : f.frameId = pid
    · rw [if_pos hc, hid]
      exact h.wf f hf
    · rw [if_neg hc]
      exact h.wf f hf
  · rw [map_id_updateFrame db pid g hid]
    exact h.nodup
  · intro f' hf'
    obtain ⟨f, hf, rfl⟩ := mem_updateFrame hf'
    by_cases hc : f.frameId = pid
    · rw [if_pos hc]
      exact hg f hf hc (h.pinv f hf hc)
    · rw [if_neg hc]
      exact h.inv f hf hc

/-- The page fan-out of `processPdfImmediately` preserves the mixed
invariant and keeps the parent id below the counter. -/
theorem pdf_foldl (user pid : Nat) (pages : List PageIn) :
    ∀ db : DB, PdfMid pid db → pid < db.nextId →
      PdfMid pid (pages.foldl (pdfPageStep user pid) db) ∧
        pid < (pages.foldl (pdfPageStep user pid) db).nextId := by
  induction pages with
  | nil => exact fun db h hpid => ⟨h, hpid⟩
  | cons pg rest ih =>
    intro db h hpid
    rw [List.foldl_cons]
    have hm : ∀ f ∈ db.frames ++
        [newFrame db.nextId user .pdf_page (some pid) (some pg.pageNumber) .queued false],
        f.frameId = db.nextId →
        FrameInv f ∧ (f.status = .queued ∨ f.status = .completed) ∧
          f.pendingProcess = false := by
      intro f hf hfid
      rcases List.mem_append.mp hf with hf | hf
      · exact absurd hfid (Nat.ne_of_lt (h.wf f hf))
      · rw [List.mem_singleton.mp hf]
        exact ⟨inv_newFrameQueued _ _ _ _ _ _, Or.inl rfl, rfl⟩
    refine ih _ ?_ ?_
    · show PdfMid pid (processImageImmediately db.nextId pg.ocr pg.concepts
        ⟨db.frames ++
          [newFrame db.nextId user .pdf_page (some pid) (some pg.pageNumber) .queued false],
         db.nextId + 1⟩)
      exact pdfmid_processImage pid db.nextId pg.ocr pg.concepts _
        (pdfmid_append h hpid user pg.pageNumber) hm
    · show pid < (processImageImmediately db.nextId pg.ocr pg.concepts
        ⟨db.frames ++
          [newFrame db.nextId user .pdf_page (some pid) (some pg.pageNumber) .queued false],
         db.nextId + 1⟩).nextId
      rw [processImage_nextId]
      exact Nat.lt_succ_of_lt hpid

/-- Every ingestion operation preserves the collection invariant. -/
theorem dbinv_applyOp (db : DB) (op : MediaOp) (h : DBInv db) :
    DBInv (applyOp db op) := by
  cases op with
  | uploadImage user ocr concepts =>
    have hdb1 : DBInv (⟨db.frames ++
        [newFrame db.nextId user .image none none .queued false],
        db.nextId + 1⟩ : DB) :=
      dbinv_append h _ rfl (inv_newFrameQueued _ _ _ _ _ _)
    have hm : ∀ f ∈ db.frames ++
        [newFrame db.nextId user .image none none .queued false],
        f.frameId = db.nextId →
        (f.status = .queued ∨ f.status = .completed) ∧ f.pendingProcess = false := by
      intro f hf hfid
      rcases List.mem_append.mp hf with hf | hf
      · exact absurd hfid (Nat.ne_of_lt (h.wf f hf))
      · rw [List.mem_singleton.mp hf]
        exact ⟨Or.inl rfl, rfl⟩
    exact dbinv_processImage db.nextId ocr concepts _ hdb1 hm
  | uploadPdf user conv =>
    have hmid : PdfMid db.nextId (⟨db.frames ++
        [newFrame db.nextId user .pdf_page none none .processing false],
        db.nextId + 1⟩ : DB) := pdfmid_start h user
    cases conv with
    | error e =>
      exact dbinv_of_pdfmid_update (fun f => rfl) hmid
        (fun f _ _ hp => inv_parentFail e f hp)
    | ok pages =>
      obtain ⟨hfold, _⟩ :=
        pdf_foldl user db.nextId pages _ hmid (Nat.lt_succ_self _)
      exact dbinv_of_pdfmid_update (fun f => rfl) hfold
        (fun f _ _ hp => inv_parentComplete f hp)
  | extractCrop user sourceId =>
    cases hfind : findFrame db sourceId with
    | none =>
      simp only [applyOp, hfind]
      exact h
    | some src =>
      simp only [applyOp, hfind]
      by_cases howner : src.createdBy = user
      · rw [if_pos howner]
        exact dbinv_append h _ rfl (inv_newFrameQueued _ _ _ _ _ _)
      · rw [if_neg howner]
        exact h
  | cropProcess id ocr concepts =>
    cases hfind : findFrame db id with
    | none =>
      simp only [applyOp, hfind]
      exact h
    | some f0 =>
      simp only [applyOp, hfind]
      by_cases hpend : f0.pendingProcess
      · rw [if_pos hpend]
        have hdb1 : DBInv (updateFrame db id
            (fun g => { g with pendingProcess := false })) :=
          dbinv_update (fun g => rfl) h (fun g _ _ hg => inv_clearPending g hg)
        have hm : ∀ f ∈ (updateFrame db id
            (fun g => { g with pendingProcess := false })).frames,
            f.frameId = id →
            (f.status = .queued ∨ f.status = .completed) ∧
              f.pendingProcess = false := by
          intro f' hf' hfid
          obtain ⟨f, hf, rfl⟩ := mem_updateFrame hf'
          by_cases hc : f.frameId = id
          · rw [if_pos hc]
            have hff0 : f = f0 := matched_eq_found h.nodup hfind hf hc
            have hfp : f.pendingProcess = true := by
              rw [hff0]
              exact hpend
            refine ⟨?_, rfl⟩
            rcases (h.inv f hf).pendingStatus hfp with hq | ⟨hc2, _⟩
            · exact Or.inl hq
            · exact Or.inr hc2
          · rw [if_neg hc] at hfid
            exact absurd hfid hc
        exact dbinv_processImage id ocr concepts _ hdb1 hm
      · rw [if_neg hpend]
        exact h
  | extractRegion user id rect ocr =>
    cases hfind : findFrame db id with
    | none =>
      simp only [applyOp, hfind]
      exact h
    | some f =>
      simp only [applyOp, hfind]
      by_cases howner : f.createdBy ≠ user
      · rw [if_pos howner]
        exact h
      · rw [if_neg howner]
        by_cases hwords : f.ocrWords ≠ []
        · rw [if_pos hwords]
          exact h
        · rw [if_neg hwords]
          cases ocr with
          | error e => exact h
          | ok o =>
            refine dbinv_update (fun g => rfl) h ?_
            intro g _ _ hinvg
            exact inv_regionUpd o g hinvg
  | deleteFrame user id =>
    cases hfind : findFrame db id with
    | none =>
      simp only [applyOp, hfind]
      exact h
    | some f =>
      simp only [applyOp, hfind]
      by_cases howner : f.createdBy ≠ user
      · rw [if_pos howner]
        exact h
      · rw [if_neg howner]
        by_cases hsrc : f.sourceType = .pdf_page
        · rw [if_pos hsrc]
          refine ⟨?_, ?_, ?_⟩
          · intro g hg
            exact h.wf g (List.mem_of_mem_filter (List.mem_of_mem_filter hg))
          · have hsub : ((db.frames.filter (fun g => ¬ g.pdfId = some id)).filter
                (fun g => ¬ g.frameId = id)).Sublist db.frames :=
              (List.filter_sublist _).trans (List.filter_sublist _)
            exact List.Nodup.sublist (hsub.map FrameDoc.frameId) h.nodup
          · intro g hg
            exact h.inv g (List.mem_of_mem_filter (List.mem_of_mem_filter hg))
        · rw [if_neg hsrc]
          refine ⟨?_, ?_, ?_⟩
          · intro g hg
            exact h.wf g (List.mem_of_mem_filter hg)
          · have hsub : (db.frames.filter
                (fun g => ¬ g.frameId = id)).Sublist db.frames :=
              List.filter_sublist _
            exact List.Nodup.sublist (hsub.map FrameDoc.frameId) h.nodup
          · intro g hg
            exact h.inv g (List.mem_of_mem_filter hg)

/-- Claim C7 (amended): under every sequence of ingestion operations,
every Frame with status `failed` has a non-null error message; a Frame
with status `completed` either previously had status `processing` or was
completed by the region-extraction on-demand OCR path, which sets
`completed` directly without passing through `processing`; every
recorded status transition is either a nominal one
(`queued → processing → {completed, failed}`) or a region-induced one
(directly into `completed`, or the deferred crop processing re-entering
`processing` after a region completion); the status history starts in
`queued` (or `processing` for the parent document frame) and ends in the
current status. -/
theorem c7_state_machine (ops : List MediaOp) :
    ∀ f ∈ (runOps ops).frames,
      (f.status = .failed → f.processingError.isSome = true) ∧
      (f.status = .completed →
        FrameStatus.processing ∈ f.history ∨ f.regionCompleted = true) ∧
      List.Chain' stepOk f.history ∧
      (f.history.head? = some .queued ∨ f.history.head? = some .processing) ∧
      f.history.getLast? = some f.status := by
  have hinv : DBInv (runOps ops) := by
    unfold runOps
    have hgen : ∀ (l : List MediaOp) (db : DB), DBInv db →
        DBInv (l.foldl applyOp db) := by
      intro l
      induction l with
      | nil => exact fun db h => h
      | cons op rest ih =>
        intro db h
        rw [List.foldl_cons]
        exact ih _ (dbinv_applyOp db op h)
    exact hgen ops initDB ⟨fun f hf => absurd hf (List.not_mem_nil f),
      List.nodup_nil, fun f hf => absurd hf (List.not_mem_nil f)⟩
  intro f hf
  have hfi := hinv.inv f hf
  exact ⟨hfi.failedErr, fun hc => hfi.completedVia (hc ▸ hfi.statusMem),
    hfi.chain, hfi.headInit, hfi.lastStatus⟩

/-- The Frame produced by a successful image upload. -/
def c7frame : FrameDoc :=
  { frameId := 0,
    createdBy := 7,
    sourceType := .image,
    pdfId := none,
    pageNumber := none,
    status := .completed,
    processingError := none,
    ocrText := lit "text",
    ocrWords := [],
    ocrConfidence := 1,
    conceptTags := [],
    difficulty := lit "easy",
    pendingProcess := false,
    history := [.queued, .processing, .completed],
    regionCompleted := false }

/-- Witness for C7 (amended) at a concrete one-operation run. -/
theorem c7_state_machine_witness :
    List.Chain' stepOk c7frame.history ∧
      (FrameStatus.processing ∈ c7frame.history ∨
        c7frame.regionCompleted = true) :=
  ⟨(c7_state_machine [.uploadImage 7 okOcr okConcepts] c7frame
      (show c7frame ∈ [c7frame] from List.mem_singleton.mpr rfl)).2.2.1,
   (c7_state_machine [.uploadImage 7 okOcr okConcepts] c7frame
      (show c7frame ∈ [c7frame] from List.mem_singleton.mpr rfl)).2.1 rfl⟩

end MediaController
